import Mathlib

/-!
Formal model of the gemdoc polyglot converter (`gemdoc.py`) and theorems
checking the specification's claims against that code.

Python strings are modelled as lists of unicode characters (`Str`); where the
Python code measures encoded bytes (xref offsets, stream lengths) an explicit
UTF-8 encoder recovers byte counts.  Fallible Python code (exceptions) is
modelled with `Except`.  Unbounded loops are modelled with an explicit fuel
argument; every entry point passes fuel that provably suffices for the inputs
considered, so the models agree with the Python loops wherever those
terminate.
-/

namespace Gemdoc

abbrev Str := List Char

/-- ASCII whitespace as matched by `\s` in Python byte-regexes. -/
def isReWs (c : Char) : Bool :=
  c = ' ' || c = '\t' || c = '\n' || c = '\r' || c = '\x0b' || c = '\x0c'

/-- Whitespace as recognised by Python `str.strip` / `str.split` (unicode). -/
def isPyWs (c : Char) : Bool :=
  isReWs c || c = '\x1c' || c = '\x1d' || c = '\x1e' || c = '\x1f' ||
  c = '\x85' || c = '\xa0' || c = ' ' ||
  (0x2000 ≤ c.toNat && c.toNat ≤ 0x200a) ||
  c = ' ' || c = ' ' || c = ' ' || c = ' ' || c = '　'

/-- Line boundaries recognised by Python `str.splitlines`. -/
def isLineBreak (c : Char) : Bool :=
  c = '\n' || c = '\r' || c = '\x0b' || c = '\x0c' ||
  c = '\x1c' || c = '\x1d' || c = '\x1e' || c = '\x85' ||
  c = ' ' || c = ' '

def splitlinesGo : Str → Str → List Str
  | [], acc => if acc.isEmpty then [] else [acc.reverse]
  | '\r' :: '\n' :: rest, acc => acc.reverse :: splitlinesGo rest []
  | c :: rest, acc =>
    if isLineBreak c then acc.reverse :: splitlinesGo rest []
    else splitlinesGo rest (c :: acc)

/-- Python `str.splitlines`. -/
def pySplitlines (s : Str) : List Str := splitlinesGo s []

def pyLstrip (s : Str) : Str := s.dropWhile isPyWs

def pyRstrip (s : Str) : Str := (s.reverse.dropWhile isPyWs).reverse

/-- Python `str.strip()` with no arguments. -/
def pyStrip (s : Str) : Str := pyRstrip (pyLstrip s)

/-- Python slice `s[a:b]`. -/
def slice (s : Str) (a b : Nat) : Str := (s.drop a).take (b - a)

def strConcat (l : List Str) : Str := l.foldr (· ++ ·) []

/-- `'\n'.join(lines)`. -/
def strJoinNl (l : List Str) : Str := List.intercalate ['\n'] l

/-- Python `s.split(maxsplit=1)` (whitespace splitting). -/
def pySplitMax1 (s : Str) : List Str :=
  let s1 := s.dropWhile isPyWs
  if s1.isEmpty then []
  else
    let t := s1.takeWhile (fun c => ¬ isPyWs c)
    let r := (s1.drop t.length).dropWhile isPyWs
    if r.isEmpty then [t] else [t, r]

def splitOnCharGo (c : Char) : Str → Str → List Str
  | [], acc => [acc.reverse]
  | x :: rest, acc =>
    if x = c then acc.reverse :: splitOnCharGo c rest []
    else splitOnCharGo c rest (x :: acc)

/-- Python `s.split(c)` for a single-character separator. -/
def splitOnChar (c : Char) (s : Str) : List Str := splitOnCharGo c s []

/-- `str(n)` for a natural number: decimal digits. -/
def natStr (n : Nat) : Str := Nat.toDigits 10 n

/-- `'{:010d}'.format(n)`-style zero padding (no truncation). -/
def zfill (w : Nat) (s : Str) : Str :=
  List.replicate (w - s.length) '0' ++ s

/-- The 5-character gemdoc magic signature `'%♊︎🗎︎'`. -/
def magicLine : Str :=
  ['%', Char.ofNat 0x264A, Char.ofNat 0xFE0E, Char.ofNat 0x1F5CE, Char.ofNat 0xFE0E]

/-- Error kinds: the Python exceptions that the modelled code can raise. -/
inductive GErr where
  | missingGemdocSignature
  | indexError
  | keyError
  | valueError
  | typeError
  | nameError
  | parseErr
  | fuel
deriving DecidableEq, Repr

/--
`is_gemdoc_pdf` from gemdoc.py.  The Python function returns `True`, falls
through returning `None` (modelled as `none`), raises
`GemdocParserException` on a pdf without the signature, or raises `IndexError`
when `splitlines()[1]` is out of range.
-/
def isGemdocPdf (doc : Str) : Except GErr (Option Bool) :=
  let d := pyLstrip doc
  if ¬ ("%PDF-".data.isPrefixOf d) then .ok none
  else
    match (pySplitlines d).get? 1 with
    | none => .error .indexError
    | some l2 =>
      if ¬ (magicLine.isPrefixOf l2) then .error .missingGemdocSignature
      else .ok (some true)

/-! ### Metadata mappings

The metadata dict's keys are drawn from the closed key set; the mapping is
modelled as an association list with Python-dict update semantics
(replace in place, else append). -/

inductive MKey where
  | author | date | url | subject | keywords | title
deriving DecidableEq, BEq, Repr

abbrev Md := List (MKey × Str)

def mdGet (m : Md) (k : MKey) : Option Str :=
  (m.find? (fun p => p.1 == k)).map (·.2)

def mdHas (m : Md) (k : MKey) : Bool := (mdGet m k).isSome

def mdSet : Md → MKey → Str → Md
  | [], k, v => [(k, v)]
  | (k', v') :: rest, k, v =>
    if k' == k then (k, v) :: rest else (k', v') :: mdSet rest k v

/-! ### Model of `urllib.parse` (the subset used by gemdoc.py) -/

def isSchemeChar (c : Char) : Bool :=
  c.isAlpha || c.isDigit || c = '+' || c = '-' || c = '.'

structure UrlParts where
  scheme : Str
  netloc : Str
  path : Str
  params : Str
  query : Str
  fragment : Str
deriving DecidableEq, Repr

def strFindChar (s : Str) (c : Char) : Option Nat := s.findIdx? (· = c)

def strRfindChar (s : Str) (c : Char) : Option Nat :=
  match strFindChar s.reverse c with
  | some j => some (s.length - 1 - j)
  | none => none

def lowerStr (s : Str) : Str := s.map Char.toLower

/-- `urllib.parse.urlsplit` with a default scheme:
returns (scheme, netloc, path-with-params, query, fragment). -/
def urlsplitD (url0 : Str) (dflt : Str) : Str × Str × Str × Str × Str :=
  let p1 : Str × Str :=
    match strFindChar url0 ':' with
    | some i =>
      if 0 < i ∧ (url0.headD ' ').isAlpha ∧ (url0.take i).all isSchemeChar then
        (lowerStr (url0.take i), url0.drop (i+1))
      else (dflt, url0)
    | none => (dflt, url0)
  let scheme := p1.1
  let url1 := p1.2
  let p2 : Str × Str :=
    if "//".data.isPrefixOf url1 then
      let rest := url1.drop 2
      let d := (rest.findIdx? (fun c => c = '/' || c = '?' || c = '#')).getD rest.length
      (rest.take d, rest.drop d)
    else ([], url1)
  let netloc := p2.1
  let url2 := p2.2
  let p3 : Str × Str :=
    match strFindChar url2 '#' with
    | some i => (url2.take i, url2.drop (i+1))
    | none => (url2, [])
  let p4 : Str × Str :=
    match strFindChar p3.1 '?' with
    | some i => ((p3.1).take i, (p3.1).drop (i+1))
    | none => (p3.1, [])
  (scheme, netloc, p4.1, p4.2, p3.2)

/-- `urllib.parse._splitparams`. -/
def splitParams (url : Str) : Str × Str :=
  match strRfindChar url '/' with
  | some r =>
    match strFindChar (url.drop r) ';' with
    | some j => (url.take (r + j), url.drop (r + j + 1))
    | none => (url, [])
  | none =>
    match strFindChar url ';' with
    | some i => (url.take i, url.drop (i+1))
    | none => (url, [])

/-- `urllib.parse.urlparse` with a default scheme. -/
def urlparseD (url : Str) (dflt : Str) : UrlParts :=
  let r := urlsplitD url dflt
  let pp := splitParams r.2.2.1
  ⟨r.1, r.2.1, pp.1, pp.2, r.2.2.2.1, r.2.2.2.2⟩

/-- `urllib.parse.urlparse`. -/
def urlparseM (url : Str) : UrlParts := urlparseD url []

def usesRelative : List Str :=
  ["", "ftp", "http", "gopher", "nntp", "imap", "wais", "file", "https",
   "shttp", "mms", "prospero", "rtsp", "rtspu", "sftp", "svn", "svn+ssh",
   "ws", "wss"].map String.data

def usesNetloc : List Str :=
  ["", "ftp", "http", "gopher", "nntp", "telnet", "imap", "wais", "file",
   "mms", "https", "shttp", "snews", "prospero", "rtsp", "rtspu", "rsync",
   "svn", "svn+ssh", "sftp", "nfs", "git", "git+ssh", "ws", "wss",
   "itms-services"].map String.data

/-- `urllib.parse.urlunsplit`. -/
def urlunsplit (scheme netloc url query fragment : Str) : Str :=
  let url1 :=
    if ¬ netloc.isEmpty ∨ (¬ url.isEmpty ∧ url.take 2 = "//".data) then
      let u := if ¬ url.isEmpty ∧ url.take 1 ≠ "/".data then '/' :: url else url
      "//".data ++ netloc ++ u
    else url
  let url2 := if scheme.isEmpty then url1 else scheme ++ [':'] ++ url1
  let url3 := if query.isEmpty then url2 else url2 ++ ['?'] ++ query
  if fragment.isEmpty then url3 else url3 ++ ['#'] ++ fragment

/-- `urllib.parse.urlunparse`. -/
def urlunparse (scheme netloc url params query fragment : Str) : Str :=
  let u := if params.isEmpty then url else url ++ [';'] ++ params
  urlunsplit scheme netloc u query fragment

def resolveDots : List Str → List Str → List Str
  | [], acc => acc.reverse
  | seg :: rest, acc =>
    if seg = "..".data then resolveDots rest acc.tail
    else if seg = ".".data then resolveDots rest acc
    else resolveDots rest (seg :: acc)

/-- Python slice assignment `segments[1:-1] = filter(None, segments[1:-1])`. -/
def filterMiddle (l : List Str) : List Str :=
  match l with
  | [] => []
  | [x] => [x]
  | x :: rest =>
    x :: ((rest.dropLast.filter (fun s => ¬ s.isEmpty)) ++ [rest.getLastD []])

/-- `urllib.parse.urljoin`. -/
def urljoin (base url : Str) : Str :=
  if base.isEmpty then url
  else if url.isEmpty then base
  else
    let b := urlparseD base []
    let u := urlparseD url b.scheme
    if u.scheme ≠ b.scheme ∨ ¬ usesRelative.contains u.scheme then url
    else
      if usesNetloc.contains u.scheme ∧ ¬ u.netloc.isEmpty then
        urlunparse u.scheme u.netloc u.path u.params u.query u.fragment
      else
        let netloc := if usesNetloc.contains u.scheme then b.netloc else u.netloc
        if u.path.isEmpty ∧ u.params.isEmpty then
          let query := if u.query.isEmpty then b.query else u.query
          urlunparse u.scheme netloc b.path b.params query u.fragment
        else
          let baseParts0 := splitOnChar '/' b.path
          let baseParts :=
            if baseParts0.getLastD [] ≠ ([] : Str) then baseParts0.dropLast
            else baseParts0
          let segments :=
            if u.path.take 1 = "/".data then splitOnChar '/' u.path
            else filterMiddle (baseParts ++ splitOnChar '/' u.path)
          let resolved0 := resolveDots segments []
          let resolved :=
            if segments.getLastD [] = ".".data ∨ segments.getLastD [] = "..".data
            then resolved0 ++ [([] : Str)] else resolved0
          let joined := List.intercalate "/".data resolved
          let path := if joined.isEmpty then "/".data else joined
          urlunparse u.scheme netloc path u.params u.query u.fragment

/-! ### The gemini → HTML translator (`parse_gemini`) -/

/-- `html.escape` (quote=True). -/
def escChar (c : Char) : Str :=
  if c = '&' then "&amp;".data
  else if c = '<' then "&lt;".data
  else if c = '>' then "&gt;".data
  else if c = '"' then "&quot;".data
  else if c = '\'' then "&#x27;".data
  else [c]

def htmlEscape (s : Str) : Str := strConcat (s.map escChar)

def addP (line : Str) : Str := "<p>".data ++ htmlEscape line ++ "</p>".data

def addTag (line tag : Str) : Str :=
  ['<'] ++ tag ++ ['>'] ++ htmlEscape line ++ "</".data ++ tag ++ ['>']

def addTagCls (line tag cls : Str) : Str :=
  ['<'] ++ tag ++ " class=\"".data ++ cls ++ "\">".data ++ htmlEscape line ++
    "</".data ++ tag ++ ['>']

/-- `''.join(c if c.isascii() else '_' for c in s)`. -/
def asciiFilter (s : Str) : Str :=
  s.map (fun c => if c.toNat < 128 then c else '_')

def isTermPunct (c : Char) : Bool :=
  c = '.' || c = ',' || c = ';' || c = ':' || c = '?' || c = '!'

/-- `add_empty_lines` from `parse_gemini` (fuel-driven; fuel `doc.length`
always suffices since the index grows towards `doc.length`). -/
def addEmptyLinesF : Nat → List Str → List Str → Nat → List Str × Nat
  | 0, _, body, i => (body, i)
  | f+1, doc, body, i =>
    match doc.get? (i+1) with
    | some l =>
      if (pyStrip l).isEmpty then
        addEmptyLinesF f doc (body ++ ["<br />".data]) (i+1)
      else (body, i)
    | none => (body, i)

def addEmptyLines (doc : List Str) (body : List Str) (i : Nat) : List Str × Nat :=
  addEmptyLinesF doc.length doc body i

/-- The `while … startswith('* ')` list loop. -/
def ulLoopF : Nat → List Str → List Str → Nat → List Str × Nat
  | 0, _, body, i => (body, i)
  | f+1, doc, body, i =>
    match doc.get? i with
    | some l =>
      if "* ".data.isPrefixOf l then
        ulLoopF f doc (body ++ [addTag (l.drop 2) "li".data]) (i+1)
      else (body, i)
    | none => (body, i)

def ulLoop (doc : List Str) (body : List Str) (i : Nat) : List Str × Nat :=
  ulLoopF (doc.length + 1) doc body i

/-- `f'=> {link}{"  " if label else ""}{label}'`. -/
def linkLine (link label : Str) : Str :=
  "=> ".data ++ link ++ (if label.isEmpty then [] else "  ".data) ++ label

/-- Loop state of `parse_gemini`'s main `while` loop. -/
structure PG where
  body : List Str
  doc : List Str
  i : Nat
  gotTitle : Bool
  pre : Bool
  md : Md
deriving Repr

/-- The subtitle lookup inside the first-heading branch of `parse_gemini`:
consumes a directly following `##` line (that is not `###`) as the subtitle.
Returns the updated html body, index, and the subtitle (if any). -/
def pgSubtitle (doc : List Str) (body : List Str) (i : Nat) :
    List Str × Nat × Option Str :=
  match doc.get? (i+1) with
  | some l2 =>
    if "##".data.isPrefixOf l2 ∧ slice l2 2 3 ≠ "#".data then
      (body ++ [addTagCls (pyStrip (l2.drop 2)) "h2".data "subtitle".data],
       i+1, some (pyStrip (l2.drop 2)))
    else (body, i, none)
  | none => (body, i, none)

/-- The `metadata['title']` synthesis from title and subtitle. -/
def titleMd (md : Md) (title : Str) (subtitle : Option Str) : Md :=
  let subT : Bool := match subtitle with
    | some s => ¬ s.isEmpty
    | none => false
  if ¬ title.isEmpty ∧ subT ∧ isTermPunct (title.getLastD ' ') then
    mdSet md .title (title ++ [' '] ++ subtitle.getD [])
  else if ¬ title.isEmpty ∧ subT then
    mdSet md .title (title ++ ": ".data ++ subtitle.getD [])
  else if ¬ title.isEmpty then
    mdSet md .title title
  else md

def pgTitleBranch (st : PG) (line : Str) : Except GErr PG :=
  let body := st.body ++ ["<div class=\"headingcontext\">".data]
  let title := pyStrip (line.drop 1)
  let body := body ++ [addTagCls title "h1".data "title".data]
  let r1 := addEmptyLines st.doc body st.i
  let sub := pgSubtitle st.doc r1.1 r1.2
  let md1 := titleMd st.md title sub.2.2
  match mdGet md1 .title with
  | none => .error .keyError
  | some t =>
    let md2 := mdSet md1 .title (asciiFilter t)
    let r2 := addEmptyLines st.doc sub.1 sub.2.1
    .ok { st with body := r2.1 ++ ["</div>".data], i := r2.2,
                  gotTitle := true, md := md2 }

def pgLinkBranch (siteHost : Str) (st : PG) (line : Str) : Except GErr PG :=
  match pySplitMax1 (pyLstrip (line.drop 2)) with
  | [] => .error .valueError
  | link0 :: restParts =>
    let label := (restParts.head?).getD []
    let s1 : Str × List Str :=
      if ¬ (mdHas st.md .url) ∧ "//".data.isPrefixOf link0 then
        let l := "gemini:".data ++ link0
        (l, st.doc.set st.i (linkLine l label))
      else (link0, st.doc)
    let link1 := s1.1
    let doc1 := s1.2
    let scheme1 := (urlparseM link1).scheme
    let s2 : Str × Str × List Str :=
      if mdHas st.md .url ∧ scheme1.isEmpty then
        let base := (mdGet st.md .url).getD []
        let l :=
          if "gemini://".data.isPrefixOf base then
            "gemini:".data ++ urljoin (base.drop 7) link1
          else urljoin base link1
        (l, (urlparseM l).scheme, doc1.set st.i (linkLine l label))
      else (link1, scheme1, doc1)
    let link2 := s2.1
    let scheme2 := s2.2.1
    let doc2 := s2.2.2
    let cls0 := scheme2
    let cls1 :=
      if (urlparseM link2).netloc = siteHost then
        cls0 ++ (if cls0.isEmpty then [] else [' ']) ++ "_internal".data
      else cls0
    let s3 : Str × Str :=
      if label.isEmpty then
        (htmlEscape link2,
         cls1 ++ (if cls1.isEmpty then [] else [' ']) ++ "_nolabel".data)
      else (label, cls1)
    let label2 := s3.1
    let cls2 := s3.2
    let aTag :=
      "<a href=\"".data ++ link2 ++ "\" class=\"".data ++ cls2 ++
      "\"><p><span class=\"label\">".data ++ htmlEscape label2 ++
      "</span> <br /><span class=\"url\">".data ++ htmlEscape link2 ++
      "</span></p></a>".data
    .ok { st with body := st.body ++ [aTag], doc := doc2 }

/-- One iteration of the main loop body (without the trailing `i += 1`). -/
def pgBody (siteHost : Str) (st : PG) (line : Str) : Except GErr PG :=
  if st.pre ∧ "```".data.isPrefixOf line then
    .ok { st with body := st.body ++ ["</pre>".data], pre := false,
                  doc := st.doc.set st.i "```".data }
  else if st.pre then
    .ok { st with body := st.body ++ [htmlEscape line] }
  else if "```".data.isPrefixOf line then
    match st.doc.get? (st.i+1) with
    | some l2 =>
      if "```".data.isPrefixOf l2 then .ok { st with i := st.i + 1 }
      else .ok { st with body := st.body ++ ["<pre>".data], pre := true }
    | none => .ok { st with body := st.body ++ ["<pre>".data], pre := true }
  else if "###".data.isPrefixOf line then
    let body := st.body ++ ["<div class=\"headingcontext\">".data,
                            addTag (pyStrip (line.drop 3)) "h3".data]
    let r := addEmptyLines st.doc body st.i
    .ok { st with body := r.1 ++ ["</div>".data], i := r.2 }
  else if "##".data.isPrefixOf line then
    let body := st.body ++ ["<div class=\"headingcontext\">".data,
                            addTag (pyStrip (line.drop 2)) "h2".data]
    let r := addEmptyLines st.doc body st.i
    .ok { st with body := r.1 ++ ["</div>".data], i := r.2 }
  else if "#".data.isPrefixOf line then
    if ¬ st.gotTitle then pgTitleBranch st line
    else
      let body := st.body ++ ["<div class=\"headingcontext\">".data,
                              addTag (line.drop 2) "h1".data]
      let r := addEmptyLines st.doc body st.i
      .ok { st with body := r.1 ++ ["</div>".data], i := r.2 }
  else if ">".data.isPrefixOf line then
    .ok { st with body := st.body ++ [addTag (line.drop 1) "blockquote".data] }
  else if "* ".data.isPrefixOf line then
    let r := ulLoop st.doc (st.body ++ ["<ul>".data]) st.i
    .ok { st with body := r.1 ++ ["</ul>".data], i := r.2 - 1 }
  else if "=>".data.isPrefixOf line then
    pgLinkBranch siteHost st line
  else if (pyStrip line).isEmpty then
    .ok { st with body := st.body ++ ["<br />".data] }
  else
    .ok { st with body := st.body ++ [addP line] }

/-- The main `while i < len(doc)` loop of `parse_gemini`. -/
def pgLoop (siteHost : Str) : Nat → PG → Except GErr PG
  | 0, _ => .error .fuel
  | f+1, st =>
    match st.doc.get? st.i with
    | none => .ok st
    | some line =>
      match pgBody siteHost st line with
      | .error e => .error e
      | .ok st' => pgLoop siteHost f { st' with i := st'.i + 1 }

def lastSlashSeg (p : Str) : Str := (splitOnChar '/' p).getLastD []

def dateTail (sep : Option Char) (r : Str) : Option (Str × Str) :=
  let m := r.take 2
  if ¬ (m.length = 2 ∧ m.all Char.isDigit) then none
  else
    let r2 := r.drop 2
    let r3o : Option Str :=
      match sep with
      | some c => if r2.headD ' ' = c then some (r2.drop 1) else none
      | none => some r2
    match r3o with
    | none => none
    | some r3 =>
      let d := r3.take 2
      if ¬ (d.length = 2 ∧ d.all Char.isDigit) then none
      else
        match r3.drop 2 with
        | c :: _ => if c.isDigit then none else some (m, d)
        | [] => none

/-- The date regex of `parse_gemini` (four digits, an optional separator
drawn from dash, slash or underscore, two digits, the same separator, two
digits, then at least one non-digit) applied to a candidate date string,
returning the (yyyy, mm, dd) groups. -/
def dateMatch (s : Str) : Option (Str × Str × Str) :=
  let y := s.take 4
  if ¬ (y.length = 4 ∧ y.all Char.isDigit) then none
  else
    let r1 := s.drop 4
    match r1.head? with
    | some c =>
      if c = '-' ∨ c = '/' ∨ c = '_' then
        (dateTail (some c) (r1.drop 1)).map (fun p => (y, p.1, p.2))
      else
        (dateTail none r1).map (fun p => (y, p.1, p.2))
    | none => none

/-- The post-loop author/date extraction from the url metadata. -/
def autoMeta (md : Md) : Md :=
  if mdHas md .url ∧ ¬ ((mdGet md .url).getD []).isEmpty ∧
     (¬ mdHas md .author ∨ ¬ mdHas md .date) then
    let p := (urlparseM ((mdGet md .url).getD [])).path
    let md1 :=
      if ¬ mdHas md .author ∧ "/~".data.isPrefixOf p then
        mdSet md .author ((p.drop 2).takeWhile (fun c => ¬ (c = '/')))
      else md
    let md2 :=
      if ¬ mdHas md1 .date then
        match dateMatch (lastSlashSeg p) with
        | some g => mdSet md1 .date (g.1 ++ ['-'] ++ g.2.1 ++ ['-'] ++ g.2.2)
        | none => md1
      else md1
    md2
  else md

def colophonStr (md : Md) : Str :=
  let a := (mdGet md .author).getD []
  let d := (mdGet md .date).getD []
  let u := (mdGet md .url).getD []
  let c1 : Str :=
    if ¬ a.isEmpty then "<author>".data ++ htmlEscape a ++ "</author>".data
    else []
  let c2 : Str :=
    if ¬ d.isEmpty then
      c1 ++ (if ¬ c1.isEmpty then "<datesep>, </datesep>".data else []) ++
      "<date>".data ++ htmlEscape d ++ "</date>".data
    else c1
  if ¬ u.isEmpty then
    c2 ++ (if ¬ c2.isEmpty then "<urlsep><br /></urlsep>".data else []) ++
    "<url><a href=".data ++ u ++ [('>' : Char)] ++ htmlEscape u ++
    "</a></url>".data
  else c2

/-- `parse_gemini(doc, metadata)`: returns (exported gemini source, html,
updated metadata). -/
def parseGemini (docStr : Str) (md0 : Md) : Except GErr (Str × Str × Md) :=
  let siteHost := (urlparseM ((mdGet md0 .url).getD [])).netloc
  let lines := pySplitlines docStr
  match pgLoop siteHost (lines.length + 1)
      { body := [], doc := lines, i := 0, gotTitle := false,
        pre := false, md := md0 } with
  | .error e => .error e
  | .ok st =>
    let md := autoMeta st.md
    let colo := colophonStr md
    let html :=
      "<html><head>\n<colophon>".data ++ colo ++
      "</colophon>\n</head><body>\n".data ++ strJoinNl st.body ++
      "\n</body></html>".data
    .ok (strJoinNl st.doc, html, md)

/-- The exported gemini source produced by `parse_gemini`. -/
def parseGeminiSrc (docStr : Str) (md0 : Md) : Except GErr Str :=
  (parseGemini docStr md0).map (·.1)

/-- The metadata mapping produced by `parse_gemini`. -/
def parseGeminiMd (docStr : Str) (md0 : Md) : Except GErr Md :=
  (parseGemini docStr md0).map (·.2.2)

/-! ## The PDF layer

Byte strings are modelled as `Str` (lists of characters).  Where the Python
code measures encoded byte counts (xref offsets, stream and source lengths),
the model measures UTF-8 byte counts through `utf8Encode`; for the inputs
this development considers, every byte of the pdf scaffolding is ASCII and
the non-ASCII content (the magic signature, the embedded gemini source)
enters the byte stream exactly through UTF-8 encoding, matching Python's
`str.encode('utf-8')`. -/

def utf8EncodeChar (c : Char) : List Nat :=
  let n := c.toNat
  if n < 0x80 then [n]
  else if n < 0x800 then [0xC0 + n / 0x40, 0x80 + n % 0x40]
  else if n < 0x10000 then
    [0xE0 + n / 0x1000, 0x80 + (n / 0x40) % 0x40, 0x80 + n % 0x40]
  else
    [0xF0 + n / 0x40000, 0x80 + (n / 0x1000) % 0x40,
     0x80 + (n / 0x40) % 0x40, 0x80 + n % 0x40]

/-- `s.encode('utf-8')`. -/
def utf8Encode (s : Str) : List Nat :=
  (s.map utf8EncodeChar).foldr (· ++ ·) []

/-- The byte length of the UTF-8 encoding of `s`. -/
def byteLen (s : Str) : Nat := (utf8Encode s).length

/-- `s.encode('utf-16be')`. -/
def utf16beChar (c : Char) : List Nat :=
  let n := c.toNat
  if n < 0x10000 then [n / 256, n % 256]
  else
    let m := n - 0x10000
    let hi := 0xD800 + m / 0x400
    let lo := 0xDC00 + m % 0x400
    [hi / 256, hi % 256, lo / 256, lo % 256]

def utf16beEncode (s : Str) : List Nat :=
  (s.map utf16beChar).foldr (· ++ ·) []

def utf16Units (be : Bool) : List Nat → Except GErr (List Nat)
  | [] => .ok []
  | hi :: lo :: rest =>
    (fun us => (if be then hi * 256 + lo else lo * 256 + hi) :: us) <$>
      utf16Units be rest
  | [_] => .error .valueError

def utf16Combine : List Nat → Except GErr Str
  | [] => .ok []
  | u :: rest =>
    if 0xD800 ≤ u ∧ u < 0xDC00 then
      match rest with
      | u2 :: rest2 =>
        if 0xDC00 ≤ u2 ∧ u2 < 0xE000 then
          (fun s => Char.ofNat (0x10000 + (u - 0xD800) * 0x400 + (u2 - 0xDC00)) :: s)
            <$> utf16Combine rest2
        else .error .valueError
      | [] => .error .valueError
    else if 0xDC00 ≤ u ∧ u < 0xE000 then .error .valueError
    else (fun s => Char.ofNat u :: s) <$> utf16Combine rest

/-- `bytes.decode('utf-16')` (BOM-aware, little-endian default). -/
def pyUtf16Decode (bs : List Nat) : Except GErr Str :=
  if bs.take 2 = [0xFE, 0xFF] then utf16Units true (bs.drop 2) >>= utf16Combine
  else if bs.take 2 = [0xFF, 0xFE] then utf16Units false (bs.drop 2) >>= utf16Combine
  else utf16Units false bs >>= utf16Combine

def hexDigitChar (n : Nat) : Char :=
  if n < 10 then Char.ofNat (48 + n) else Char.ofNat (87 + n)

/-- `'{:02x}'.format(b)` for a byte. -/
def byteHex (b : Nat) : Str := [hexDigitChar (b / 16), hexDigitChar (b % 16)]

def hexVal (c : Char) : Option Nat :=
  if '0' ≤ c ∧ c ≤ '9' then some (c.toNat - 48)
  else if 'a' ≤ c ∧ c ≤ 'f' then some (c.toNat - 87)
  else if 'A' ≤ c ∧ c ≤ 'F' then some (c.toNat - 55)
  else none

/-- `bytes.fromhex`. -/
def pyFromHex : Str → Except GErr (List Nat)
  | [] => .ok []
  | c1 :: c2 :: rest =>
    match hexVal c1, hexVal c2 with
    | some a, some b => (fun bs => (a * 16 + b) :: bs) <$> pyFromHex rest
    | _, _ => .error .valueError
  | [_] => .error .valueError

/-- `s.find(pat)`: index of the first occurrence, `none` when absent. -/
def strFind (pat : Str) : Str → Option Nat
  | [] => if pat.isEmpty then some 0 else none
  | c :: rest =>
    if pat.isPrefixOf (c :: rest) then some 0
    else (strFind pat rest).map (· + 1)

/-- `pat in s` is false: no occurrence of `pat` anywhere in `s`. -/
def noSub (pat s : Str) : Bool := (strFind pat s).isNone

/-- `str(n)` via `Nat.toDigits`. -/
def decStr (n : Nat) : Str := natStr n

def digitsToNat (s : Str) : Nat := s.foldl (fun a c => a * 10 + (c.toNat - 48)) 0

def orErr {α : Type} (o : Option α) (e : GErr) : Except GErr α :=
  match o with
  | some a => .ok a
  | none => .error e

/-- Python `bytes.split()` with no arguments: whitespace tokens. -/
def pySplitWsAll (s : Str) : List Str :=
  (pySplitlines (s.map (fun c => if isReWs c then '\n' else c))).filter
    (fun t => ¬ t.isEmpty)

/-- ASCII85 encoding of a byte string, as `base64.a85encode`. -/
def a85group (g : List Nat) : List Nat :=
  let n := g.length
  let padded := g ++ List.replicate (4 - n) 0
  let v := match padded with
    | [a, b, c, d] => ((a * 256 + b) * 256 + c) * 256 + d
    | _ => 0
  let c0 := v / 85 ^ 4
  let c1 := (v / 85 ^ 3) % 85
  let c2 := (v / 85 ^ 2) % 85
  let c3 := (v / 85) % 85
  let c4 := v % 85
  ([c0, c1, c2, c3, c4].take (n + 1)).map (· + 33)

def a85chunks : List Nat → List (List Nat)
  | [] => []
  | a :: rest =>
    match rest with
    | b :: c :: d :: rest2 => [a, b, c, d] :: a85chunks rest2
    | _ => [a :: rest]

def a85encode (bs : List Nat) : Str :=
  (a85chunks bs).foldr (fun g acc =>
    (if g.length = 4 ∧ a85group g = [33, 33, 33, 33, 33] then ['z']
     else (a85group g).map Char.ofNat) ++ acc) []

/-! ### PDF object model (`GemdocPDFObject`) -/

inductive PVal where
  | tok : Str → PVal
  | arr : List PVal → PVal
  | dct : List (Str × PVal) → PVal
deriving Repr

abbrev PDict := List (Str × PVal)

def dGet : PDict → Str → Option PVal
  | [], _ => none
  | (k', v) :: rest, k => if k' == k then some v else dGet rest k

def dHas (d : PDict) (k : Str) : Bool := (dGet d k).isSome

/-- Python dict assignment: replace in place, else append. -/
def dSet : PDict → Str → PVal → PDict
  | [], k, v => [(k, v)]
  | (k', v') :: rest, k, v =>
    if k' == k then (k, v) :: rest else (k', v') :: dSet rest k v

/-- Python dict `pop`: the removed value (if present) and the remainder. -/
def dPop (d : PDict) (k : Str) : Option PVal × PDict :=
  (dGet d k, d.filter (fun p => ¬ p.1 == k))

/-- `isPyTokEmptyParens v` holds when `v` is the byte token `()`. -/
def isEmptyParens : PVal → Bool
  | .tok t => t == "()".data
  | _ => false

/-- Does this token get a disambiguating leading space on emission
(`re.match(b'^[\d-]', t)` or a bare literal)? -/
def numOrLit (t : Str) : Bool :=
  (match t.head? with
   | some c => c.isDigit || c = '-'
   | none => false) ||
  t == "null".data || t == "true".data || t == "false".data

def lstripSp (s : Str) : Str := s.dropWhile (· = ' ')

def rstripSp (s : Str) : Str := (s.reverse.dropWhile (· = ' ')).reverse

mutual
/-- The element transformation of `GemdocPDFObject._serialize_list`. -/
def serializeVal : PVal → Str
  | .tok t => if numOrLit t then ' ' :: t else t
  | .arr l => '[' :: rstripSp (lstripSp (joinVals l)) ++ [']']
  | .dct d => "<<".data ++ joinPairs d ++ ">>".data
termination_by structural v => v

def joinVals : List PVal → Str
  | [] => []
  | v :: rest => serializeVal v ++ joinVals rest
termination_by structural l => l

def joinPairs : PDict → Str
  | [] => []
  | (k, v) :: rest => k ++ serializeVal v ++ joinPairs rest
termination_by structural d => d
end

/-- `GemdocPDFObject._serialize_dictionary`. -/
def serializeDict (d : PDict) : Str :=
  "<<".data ++ joinPairs d ++ ">>".data

/-- `GemdocPDFObject._consume_whitespace`: skip to the first non-whitespace
byte; when there is none the input is returned unchanged. -/
def consumeWs (b : Str) : Str :=
  if b.all isReWs then b else b.dropWhile isReWs

def isPdfDelim (c : Char) : Bool :=
  isReWs c || c = '(' || c = ')' || c = '<' || c = '>' || c = '[' ||
  c = ']' || c = '{' || c = '}' || c = '/' || c = '%'

/-- Leftmost match of the regex `\d+\s+\d+\s+o` at the start of `b`. -/
def matchNumNumO (b : Str) : Bool :=
  let d1 := b.takeWhile Char.isDigit
  if d1.isEmpty then false else
  let b1 := b.drop d1.length
  let w1 := b1.takeWhile isReWs
  if w1.isEmpty then false else
  let b2 := b1.drop w1.length
  let d2 := b2.takeWhile Char.isDigit
  if d2.isEmpty then false else
  let b3 := b2.drop d2.length
  let w2 := b3.takeWhile isReWs
  if w2.isEmpty then false else
  "o".data.isPrefixOf (b3.drop w2.length)

/-- Match `^(\d+)\s+(\d+)\s+obj` at the start, returning the two digit
groups, the consumed length, and whether trailing whitespace follows
(for the `[\s]+` variant). -/
def matchObjHeader (b : Str) : Option (Str × Str × Nat) :=
  let d1 := b.takeWhile Char.isDigit
  if d1.isEmpty then none else
  let b1 := b.drop d1.length
  let w1 := b1.takeWhile isReWs
  if w1.isEmpty then none else
  let b2 := b1.drop w1.length
  let d2 := b2.takeWhile Char.isDigit
  if d2.isEmpty then none else
  let b3 := b2.drop d2.length
  let w2 := b3.takeWhile isReWs
  if w2.isEmpty then none else
  let b4 := b3.drop w2.length
  if "obj".data.isPrefixOf b4 then
    some (d1, d2, d1.length + w1.length + d2.length + w2.length + 3)
  else none

/-- `GemdocPDFObject._consume_objnum` (regex `^(\d+)\s+(\d+)\s+obj[\s]+`):
returns the rest and the normalized `b'{n} {g} obj'` token. -/
def consumeObjnum (b0 : Str) : Except GErr (Str × Str) :=
  let b := consumeWs b0
  match matchObjHeader b with
  | none => .error .parseErr
  | some (d1, d2, len) =>
    let b1 := b.drop len
    let w := b1.takeWhile isReWs
    if w.isEmpty then .error .parseErr
    else .ok (b1.drop w.length, d1 ++ [' '] ++ d2 ++ " obj".data)

/-- Match `^\d+\s+\d+\s+R` at the start (an indirect reference). -/
def matchRef (b : Str) : Bool :=
  let d1 := b.takeWhile Char.isDigit
  if d1.isEmpty then false else
  let b1 := b.drop d1.length
  let w1 := b1.takeWhile isReWs
  if w1.isEmpty then false else
  let b2 := b1.drop w1.length
  let d2 := b2.takeWhile Char.isDigit
  if d2.isEmpty then false else
  let b3 := b2.drop d2.length
  let w2 := b3.takeWhile isReWs
  if w2.isEmpty then false else
  "R".data.isPrefixOf (b3.drop w2.length)

/-- The quirky literal-string scan of `_consume_list`: `o, c = find('(', 1),
find(')', 1); while 0 <= o < c: o, c = find('(', c+1), find(')', c+1)`;
the end of the token is `c+1`.  Returns `none` when the scan ends with
`c = -1` (on such inputs the Python loop would never terminate, since the
token becomes empty and the list loop repeats forever). -/
def findCharFrom (s : Str) (c : Char) (start : Nat) : Int :=
  match strFindChar (s.drop start) c with
  | some i => (start + i : Nat)
  | none => -1

def parenLoop : Nat → Str → Int → Int → Int
  | 0, _, _, c => c
  | f + 1, s, o, c =>
    if 0 ≤ o ∧ o < c then
      parenLoop f s (findCharFrom s '(' (c + 1).toNat)
        (findCharFrom s ')' (c + 1).toNat)
    else c

def parenScanEnd (s : Str) : Option Nat :=
  let c := parenLoop (s.length + 1) s (findCharFrom s '(' 1) (findCharFrom s ')' 1)
  if c < 0 then none else some (c.toNat + 1)

/-- The pairing loop of `_consume_dictionary` (with Python-dict update
semantics for the keys; a non-token key is unhashable in Python). -/
def pairUp : List PVal → PDict → Except GErr PDict
  | [], d => .ok d
  | [_], _ => .error .parseErr
  | k :: v :: rest, d =>
    match k with
    | .tok t => pairUp rest (dSet d t v)
    | _ => .error .typeError

/-- The item loop of `GemdocPDFObject._consume_list`; `acc` accumulates the
parsed items in order.  Nested `[...]` and `<<...>>` values re-enter the
loop directly (in the Python code they go through `_consume_list` /
`_consume_dictionary`, which strip leading whitespace — a no-op here since
the scrutinised input already starts with the non-whitespace delimiter).
Fuel bounds the iteration count; every entry point passes fuel exceeding
the input length, which always suffices since each iteration consumes at
least one byte. -/
def consumeItems : Nat → Str → Str → List PVal → Except GErr (Str × List PVal)
  | 0, _, _, _ => .error .fuel
  | f + 1, dClose, b0, acc =>
    let b := consumeWs b0
    if "%".data.isPrefixOf b then
      match b.findIdx? (fun c => c = '\r' || c = '\n') with
      | none => consumeItems f dClose [] acc
      | some m => consumeItems f dClose (b.drop (m + 1)) acc
    else if "/".data.isPrefixOf b then
      match (b.drop 1).findIdx? isPdfDelim with
      | none => .error .parseErr
      | some e => consumeItems f dClose (b.drop (e + 1)) (acc ++ [.tok (b.take (e + 1))])
    else if "(".data.isPrefixOf b then
      match parenScanEnd b with
      | none => .error .parseErr
      | some e => consumeItems f dClose (b.drop e) (acc ++ [.tok (b.take e)])
    else if "[".data.isPrefixOf b then
      match consumeItems f "]".data (b.drop 1) [] with
      | .error e => .error e
      | .ok (b', l) => consumeItems f dClose b' (acc ++ [.arr l])
    else if "<<".data.isPrefixOf b then
      match consumeItems f ">>".data (b.drop 2) [] with
      | .error e => .error e
      | .ok (b', l) =>
        match pairUp l [] with
        | .error e => .error e
        | .ok d => consumeItems f dClose b' (acc ++ [.dct d])
    else if "<".data.isPrefixOf b then
      match strFindChar b '>' with
      | none => .error .valueError
      | some i => consumeItems f dClose (b.drop (i + 1)) (acc ++ [.tok (b.take (i + 1))])
    else if matchRef b then
      match strFindChar b 'R' with
      | none => .error .valueError
      | some i => consumeItems f dClose (b.drop (i + 1)) (acc ++ [.tok (b.take (i + 1))])
    else if (match b.head? with | some c => c.isDigit || c = '-' | none => false) then
      match b.findIdx? (fun c => ¬ (c.isDigit || c = '.' || c = '-')) with
      | none => .error .parseErr
      | some e => consumeItems f dClose (b.drop e) (acc ++ [.tok (b.take e)])
    else if "null".data.isPrefixOf b then
      consumeItems f dClose (b.drop 4) (acc ++ [.tok "null".data])
    else if "true".data.isPrefixOf b then
      consumeItems f dClose (b.drop 4) (acc ++ [.tok "true".data])
    else if "false".data.isPrefixOf b then
      consumeItems f dClose (b.drop 5) (acc ++ [.tok "false".data])
    else if dClose.isPrefixOf b then
      .ok (b.drop dClose.length, acc)
    else .error .parseErr

/-- `GemdocPDFObject._consume_list`. -/
def consumeListF (f : Nat) (dOpen dClose b0 : Str) :
    Except GErr (Str × List PVal) :=
  let b := consumeWs b0
  if dOpen.isPrefixOf b then consumeItems f dClose (b.drop dOpen.length) []
  else .error .parseErr

/-- `GemdocPDFObject._consume_dictionary`. -/
def consumeDictF (f : Nat) (b : Str) : Except GErr (Str × PDict) :=
  match consumeListF f "<<".data ">>".data b with
  | .error e => .error e
  | .ok (b', l) =>
    match pairUp l [] with
    | .error e => .error e
    | .ok d => .ok (b', d)

structure PObj where
  numTok : Str
  dict : PDict
  stream : Option Str
  contents : Option Str
deriving Repr

/-- `GemdocPDFObject.__init__`. -/
def objectParse (b0 : Str) : Except GErr PObj := do
  let (b1, numTok) ← consumeObjnum b0
  let (b2, dict) ←
    if "<<".data.isPrefixOf b1 then consumeDictF (b1.length + 1) b1
    else .ok (b1, ([] : PDict))
  let b3 := consumeWs b2
  if "stream\n".data.isPrefixOf b3 then
    match strFind "endstream".data b3 with
    | none => .error .parseErr
    | some e => .ok ⟨numTok, dict, some ((b3.drop 7).take (e - 7)), none⟩
  else
    match strFind "endobj".data b3 with
    | none => .error .parseErr
    | some e => .ok ⟨numTok, dict, none, some (b3.take e)⟩

/-- The initial `/Filter`-list normalization of `GemdocPDFObject.serialize`
(`if type(flist) == bytes: flist = [flist]`; a dictionary `/Filter` value
crashes the Python code further down). -/
def objFilterList : Option PVal → Except GErr (List PVal)
  | none => .ok []
  | some (.tok t) => .ok [.tok t]
  | some (.arr l) => .ok l
  | some (.dct _) => .error .typeError

/-- The re-encoded stream: ASCII85 plus `~>`, space-stuffed when it would
begin with a toggle. -/
def streamEnc (zc : List Nat → List Nat) (flate : Bool) (s : Str) : Str :=
  let sbytes := s.map Char.toNat
  let enc0 := a85encode (if flate then zc sbytes else sbytes) ++ "~>".data
  if "```".data.isPrefixOf enc0 then ' ' :: enc0 else enc0

/-- The filter list written back for a stream object (`/ASCII85Decode`
first, then `/FlateDecode` when flate-encoding). -/
def filtersOf (flate : Bool) (flist0 : List PVal) : List PVal :=
  PVal.tok "/ASCII85Decode".data ::
    (if flate then PVal.tok "/FlateDecode".data :: flist0 else flist0)

/-- `if flist: dictionary[b'/Filter'] = flist[0] if len(flist) == 1 else
flist`. -/
def setFilter (d : PDict) (flist : List PVal) : PDict :=
  if flist.isEmpty then d
  else dSet d "/Filter".data
    (match flist with
     | [x] => x
     | l => .arr l)

/-- Dictionary fixing for a stream object: write the filter list, update
`/Length` when present, drop `/Length1`. -/
def streamDict (flate : Bool) (dict1 : PDict) (flist0 : List PVal)
    (enc : Str) : PDict :=
  let dict2 := setFilter dict1 (filtersOf flate flist0)
  let dict3 :=
    if dHas dict2 "/Length".data then
      dSet dict2 "/Length".data (.tok (decStr enc.length))
    else dict2
  (dPop dict3 "/Length1".data).2

/-- Final object assembly: objnum token, `\r`, the serialized dictionary
(when non-empty), the body, a guaranteed trailing `\r`, then `endobj\r`. -/
def objAssemble (numTok : Str) (dict : PDict) (body : Str) : Str :=
  let binary := numTok ++ ['\r'] ++
    (if dict.isEmpty then [] else serializeDict dict) ++ body
  (if binary.getLast? = some '\r' then binary else binary ++ ['\r']) ++
    "endobj\r".data

/-- `GemdocPDFObject.serialize(flateencode)`.  `zc` models `zlib.compress`
(never invoked when `flate` is off). -/
def objSerialize (zc : List Nat → List Nat) (flate : Bool) (o : PObj) :
    Except GErr Str := do
  let (fl0, dict1) := dPop o.dict "/Filter".data
  let flist0 ← objFilterList fl0
  match o.stream with
  | some s =>
    let enc := streamEnc zc flate s
    .ok (objAssemble o.numTok (streamDict flate dict1 flist0 enc)
      ("\rstream\n".data ++ enc ++ "\rendstream\r".data))
  | none =>
    match o.contents with
    | none => .error .parseErr
    | some cts =>
      let dict2 := setFilter dict1 flist0
      if dHas dict2 "/Length".data then .error .nameError
      else
        .ok (objAssemble o.numTok ((dPop dict2 "/Length1".data).2)
          (cts.map (fun c => if c = '\n' then '\r' else c)))

/-- `GemdocPDFTrailer.__init__`. -/
def trailerParse (b : Str) : Except GErr PDict :=
  (objectParse ("0 0 obj\n".data ++ b ++ "\nendobj".data)).map (·.dict)

/-- `GemdocPDFTrailer.serialize`. -/
def trailerSerialize (d : PDict) : Str :=
  "trailer\r".data ++ serializeDict d ++ ['\r']

/-! ### The whole-file model (`GemdocPDF`) -/

abbrev ObjTable := List (Nat × PObj)

def oGet : ObjTable → Nat → Option PObj
  | [], _ => none
  | (n', o) :: rest, n => if n' == n then some o else oGet rest n

def oSet : ObjTable → Nat → PObj → ObjTable
  | [], n, o => [(n, o)]
  | (n', o') :: rest, n, o =>
    if n' == n then (n, o) :: rest else (n', o') :: oSet rest n o

structure PDF where
  geminiHash : Option Str
  binaryHash : Option Str
  flate : Bool
  gemini : Option Str
  geminiObjnum : Nat
  objects : ObjTable
  trailer : PDict
deriving Repr

/-- `GemdocPDF._discard_pre_obj` (leftmost match of `\d+\s+\d+\s+o`). -/
def findNumNumO : Str → Option Nat
  | [] => none
  | c :: rest =>
    if matchNumNumO (c :: rest) then some 0
    else (findNumNumO rest).map (· + 1)

def discardPreObj (b : Str) : Str :=
  match findNumNumO b with
  | none => []
  | some j => b.drop j

/-- `GemdocPDF._consume_obj`.  Note the Python bug: `endobj =
binary.find(b'endobj')+len(b'endobj'); if endobj == -1` never fires, so a
missing `endobj` yields the 5-byte chunk `binary[:5]`. -/
def consumeObj (b : Str) : Except GErr (Nat × Str × Str) := do
  let ws0 := b.takeWhile isReWs
  let b1 := b.drop ws0.length
  match matchObjHeader b1 with
  | none => .error .parseErr
  | some (d1, d2, _) =>
    if ¬ d2 = "0".data then .error .parseErr
    else
      let eo := match strFind "endobj".data b with
        | some p => p + 6
        | none => 5
      .ok (digitsToNat d1, b.take eo ++ ['\n'], b.drop eo)

/-- `re.match(rb'[\r\n]*xref', b)`. -/
def matchXrefStart (b : Str) : Bool :=
  "xref".data.isPrefixOf (b.dropWhile (fun c => c = '\r' || c = '\n'))

/-- The parse loop of `GemdocPDF.__init__`. -/
def pdfInitLoop : Nat → ObjTable → PDict → Str → Except GErr (ObjTable × PDict)
  | 0, _, _, _ => .error .fuel
  | f + 1, objs, trl, b =>
    if b.isEmpty then .ok (objs, trl)
    else if matchXrefStart b then
      let sI : Int := match strFind "trailer".data b with
        | some p => (p : Nat)
        | none => -1
      let eI : Int := match strFind "startxref".data b with
        | some p => (p : Nat)
        | none => -1
      let trlStep : Except GErr PDict :=
        if 0 ≤ sI ∧ sI < eI - 1 then
          trailerParse ((b.drop (sI.toNat + 7)).take ((eI - 1).toNat - (sI.toNat + 7)))
        else .ok trl
      match trlStep with
      | .error e => .error e
      | .ok trl' =>
        let b' := match strFind "%%EOF".data b with
          | some p => b.drop (p + 5)
          | none => []
        pdfInitLoop f objs trl' b'
    else
      let b1 := discardPreObj b
      if b1.isEmpty then .ok (objs, trl)
      else
        match consumeObj b1 with
        | .error e => .error e
        | .ok (n, chunk, rest) =>
          match objectParse chunk with
          | .error e => .error e
          | .ok o => pdfInitLoop f (oSet objs n o) trl rest

/-- `GemdocPDF._make_utf16_string`. -/
def makeUtf16String (s : Str) : Str :=
  '<' :: "feff".data ++
    ((utf16beEncode s).foldr (fun b acc => byteHex b ++ acc) []) ++ ['>']

def refNum (t : Str) : Except GErr Nat :=
  match (pySplitWsAll t).head? with
  | none => .error .indexError
  | some p =>
    if ¬ p.isEmpty ∧ p.all Char.isDigit then .ok (digitsToNat p)
    else .error .valueError

/-- `GemdocPDF._make_attachment`. -/
def makeAttachment (objs : ObjTable) (trl : PDict) (gnum : Nat)
    (fname : Str) : Except GErr (ObjTable × PDict) := do
  let rootRef ← orErr (dGet trl "/Root".data) .keyError
  let rootTok ← match rootRef with
    | .tok t => .ok t
    | _ => .error .typeError
  let rootNum ← refNum rootTok
  let rootObj ← orErr (oGet objs rootNum) .keyError
  let fsNum := gnum + 1
  let fsLit := decStr fsNum ++ " 0 obj\r<</Type/Filespec/AFRelationship/Source/F".data ++
    makeUtf16String fname ++ "/UF".data ++ makeUtf16String fname ++
    "/EF<</F ".data ++ decStr gnum ++ " 0 R>>>>\nendobj\r".data
  let fs ← objectParse fsLit
  let objs1 := oSet objs fsNum fs
  let fsRef := PVal.tok (decStr fsNum ++ " 0 R".data)
  let rd1 := dSet rootObj.dict "/Names".data
    (.dct [("/EmbeddedFiles".data,
      .dct [("/Names".data,
        .arr [.tok (makeUtf16String fname), fsRef])])])
  let rd2 ←
    match dGet rd1 "/AF".data with
    | none => .ok (dSet rd1 "/AF".data (.arr [fsRef]))
    | some (.arr l) => .ok (dSet rd1 "/AF".data (.arr (l ++ [fsRef])))
    | some _ => .error .typeError
  let objs2 := oSet objs1 rootNum { rootObj with dict := rd2 }
  let trl1 := dSet trl "/Size".data (.tok (decStr (fsNum + 1)))
  .ok (objs2, trl1)

/-- `GemdocPDF.__init__`; `sha` models `hashlib.sha256(·).hexdigest()`. -/
def pdfInit (sha : List Nat → Str) (gemini : Option Str) (binary : Str)
    (fname : Str) (flate : Bool) : Except GErr PDF := do
  let gh := gemini.map (fun g => sha (utf8Encode g))
  let bh := some (sha (utf8Encode binary))
  let (objs, trl) ← pdfInitLoop (binary.length + 1) [] [] binary
  match gemini with
  | none =>
    .ok ⟨gh, bh, flate, none, 0, objs, trl⟩
  | some g =>
    match (objs.map (·.1)).max? with
    | none => .error .valueError
    | some mx =>
      let gnum := mx + 1
      let (objs1, trl1) ← makeAttachment objs trl gnum fname
      .ok ⟨gh, bh, flate, some g, gnum, objs1, trl1⟩

/-- `GemdocPDF._info_dict` (the info object's number and dictionary). -/
def infoLookup (st : PDF) : Except GErr (Nat × PDict) := do
  let infoRef ← orErr (dGet st.trailer "/Info".data) .keyError
  let infoTok ← match infoRef with
    | .tok t => .ok t
    | _ => .error .typeError
  let n ← refNum infoTok
  let o ← orErr (oGet st.objects n) .keyError
  .ok (n, o.dict)

def pdfKeyOf : MKey → Str
  | .author => "/Author".data
  | .title => "/Title".data
  | .date => "/PublishingDate".data
  | .url => "/URL".data
  | .subject => "/Subject".data
  | .keywords => "/Keywords".data

def mkeyOfPdf (k : Str) : Option MKey :=
  if k == "/Author".data then some .author
  else if k == "/Title".data then some .title
  else if k == "/PublishingDate".data then some .date
  else if k == "/URL".data then some .url
  else if k == "/Subject".data then some .subject
  else if k == "/Keywords".data then some .keywords
  else none

def writeInfo (st : PDF) (n : Nat) (d : PDict) : Except GErr PDF := do
  let o ← orErr (oGet st.objects n) .keyError
  .ok { st with objects := oSet st.objects n { o with dict := d } }

/-- `GemdocPDF.set_metadata`. -/
def pdfSetMetadata (st : PDF) (m : List (MKey × Str)) : Except GErr PDF := do
  let (n, info) ← infoLookup st
  let info1 := info.filter (fun p => ¬ isEmptyParens p.2)
  let info2 := m.foldl (fun d p =>
    dSet d (pdfKeyOf p.1) (.tok (makeUtf16String p.2))) info1
  writeInfo st n info2

/-- `GemdocPDF.get_metadata`. -/
def decodeMetaVal (v : Str) : Except GErr (Option Str) :=
  if "(".data.isPrefixOf v ∧ v.getLast? = some ')' then
    let inner := (v.drop 1).take (v.length - 2)
    if inner.all (fun c => c.toNat < 128) then .ok (some inner)
    else .error .valueError
  else if "<".data.isPrefixOf v ∧ v.getLast? = some '>' then do
    let inner := (v.drop 1).take (v.length - 2)
    if inner.all (fun c => c.toNat < 128) then
      let bs ← pyFromHex inner
      let s ← pyUtf16Decode bs
      .ok (some s)
    else .error .valueError
  else .ok none

def pdfGetMetadata (st : PDF) : Except GErr Md := do
  let (_, info) ← infoLookup st
  info.foldlM (fun md p => do
    match mkeyOfPdf p.1 with
    | none => .ok md
    | some k =>
      match p.2 with
      | .tok t => do
        match ← decodeMetaVal t with
        | some s => .ok (mdSet md k s)
        | none => .ok md
      | _ => .ok md) []

/-- `'{:010d}'.format(n)`. -/
def pad10 (n : Nat) : Str := zfill 10 (decStr n)

/-- Lookup in the xref mapping (`i in xref` / `xref[i]`). -/
def xGet : List (Nat × Nat) → Nat → Option Nat
  | [], _ => none
  | (n', v) :: rest, n => if n' == n then some v else xGet rest n

/-- The xref-row loop of `GemdocPDF.serialize` (`last_free` chaining). -/
def xrefRows (xr : List (Nat × Nat)) (mx : Nat) : Str :=
  ((List.range' 1 mx).foldl (fun acc i =>
    match xGet xr i with
    | some off => (acc.1 ++ pad10 off ++ " 00000 n \r".data, acc.2)
    | none => (acc.1 ++ pad10 acc.2 ++ " 00001 f \r".data, i)) (([] : Str), 0)).1

/-- Specification-side description of the free-entry chaining: the greatest
free object number strictly below `i` (and at least 1), or 0 when there is
none.  `keys` are the object numbers present in the xref mapping. -/
def lastFreeBelow (keys : List Nat) (i : Nat) : Nat :=
  (List.range' 1 (i - 1)).foldl (fun a j => if keys.contains j then a else j) 0

/-- One iteration of the object-emission loop of `GemdocPDF.serialize`:
append the object's serialization and record `xref[objnum] = len(result)`. -/
def serStep (zc : List Nat → List Nat) (flate : Bool)
    (acc : Str × List (Nat × Nat)) (p : Nat × PObj) :
    Except GErr (Str × List (Nat × Nat)) := do
  let s ← objSerialize zc flate p.2
  .ok (acc.1 ++ s, acc.2 ++ [(p.1, byteLen acc.1)])

/-- The metadata-fixing prologue of `GemdocPDF.serialize`: set `/Creator`,
pop `/Producer` and re-append it with the gemdoc suffix. -/
def fixInfoProducer (st : PDF) : Except GErr PDF := do
  let (n, info) ← infoLookup st
  let info := dSet info "/Creator".data (.tok "(gemdoc)".data)
  let (p0, info) := dPop info "/Producer".data
  let pv ← orErr p0 .keyError
  let p ← match pv with
    | .tok t => .ok t
    | _ => .error .typeError
  let pnote := " (with gemdoc postprocessing)".data
  let p1 :=
    if "(".data.isPrefixOf p ∧ p.getLast? = some ')' then
      p.dropLast ++ pnote ++ [')']
    else if "<".data.isPrefixOf p ∧ p.getLast? = some '>' then
      p.dropLast ++ makeUtf16String pnote ++ ['>']
    else p
  let info := dSet info "/Producer".data (.tok p1)
  writeInfo st n info

/-- The polyglot header (`'%PDF-1.7\n{magic_line}\n` + two toggle lines). -/
def gemHeader : Str := "%PDF-1.7\n".data ++ magicLine ++ "\n```\n```\r".data

/-- The plain-pdf header emitted when no gemini source is attached. -/
def noGemHeader : Str :=
  "%PDF-1.7\n%".data ++
    [Char.ofNat 0xB6, Char.ofNat 0x1F5CE, Char.ofNat 0xFE0E] ++ ['\n']

/-- The embedded-file object literal holding the gemini source. -/
def gemEmbedObj (g : Str) (gnum : Nat) : Str :=
  decStr gnum ++
    " 0 obj\r<</Type/EmbeddedFile/Subtype/text#2fgemini/Params<</Size ".data ++
    decStr ((utf8Encode g).length + 1) ++ ">>/Length ".data ++
    decStr ((utf8Encode g).length + 1) ++
    ">>\rstream\n".data ++ g ++ "\n\nendstream\nendobj\n".data

def pdfMarker : Str :=
  "```% What follows is a pdf representation of this file\n".data

/-- The trailer `/ID` value `'[<{gemini_hash}><{binary_hash}>]'`. -/
def idToken (h1 h2 : Str) : Str :=
  "[<".data ++ h1 ++ "><".data ++ h2 ++ ">]".data

/-- The textual xref section: header line, count line, the always-free
entry for object 0, then the rows for objects 1..mx. -/
def xrefSection (xref : List (Nat × Nat)) (mx : Nat) : Str :=
  "xref\r0 ".data ++ decStr (mx + 1) ++ ['\r'] ++
    "0000000000 65535 f \r".data ++ xrefRows xref mx

def pdfTail (sx : Nat) : Str :=
  "startxref\r".data ++ decStr sx ++ "\r%%EOF\n".data

/-- `GemdocPDF.serialize`, returning the output together with the xref
mapping, the startxref offset and the emitted trailer dictionary (the
Python function computes all four; only the output bytes are returned
there). -/
def pdfSerializeCore (zc : List Nat → List Nat) (st : PDF) :
    Except GErr (Str × List (Nat × Nat) × Nat × PDict) := do
  let st ← fixInfoProducer st
  let hdr : Except GErr (PDict × Str × List (Nat × Nat)) :=
    match st.gemini with
    | some g => do
      let h1 ← orErr st.geminiHash .parseErr
      let h2 ← orErr st.binaryHash .parseErr
      let trl1 := dSet st.trailer "/ID".data (.tok (idToken h1 h2))
      .ok (trl1, gemHeader ++ gemEmbedObj g st.geminiObjnum,
        [(st.geminiObjnum, byteLen gemHeader)])
    | none =>
      .ok (st.trailer, noGemHeader, [])
  let (trl1, res0, xref0) ← hdr
  let res1 := res0 ++ pdfMarker
  let (res2, xref) ← st.objects.foldlM (serStep zc st.flate) (res1, xref0)
  let startxref := byteLen res2
  match (xref.map (·.1)).max? with
  | none => .error .valueError
  | some mx =>
    .ok (res2 ++ xrefSection xref mx ++ trailerSerialize trl1 ++
      pdfTail startxref, xref, startxref, trl1)

def pdfSerialize (zc : List Nat → List Nat) (st : PDF) : Except GErr Str :=
  (pdfSerializeCore zc st).map (·.1)

/-! ### The polyglot reader -/

/-- `extract_gemini_part`. -/
def extractGeminiPart (sha : List Nat → Str) (doc : Str) :
    Except GErr (Str × Md) := do
  let st ← pdfInit sha none doc "source.gmi".data false
  let metadata ← pdfGetMetadata st
  let start ← (orErr (strFind "stream\n".data doc) .valueError).map (· + 7)
  let e ← orErr ((strFind "\nendstream\nendobj\n".data (doc.drop start)).map
    (· + start)) .valueError
  let part := (doc.drop start).take (e - start)
  let part := if part.getLast? = some '\n' then part.dropLast else part
  .ok (part, metadata)

/--
Reference state machine marking the indices at which `parse_gemini`'s main
loop closes a preformatted block (the branch that rewrites the current line
to the bare triple-backtick line).  It mirrors the loop's movement over the
toggle-relevant lines: inside a preformatted block every line starting with
a triple backtick closes it; outside, a toggle line opens a block unless the
directly following line is also a toggle line, in which case both lines are
skipped with no state change.
-/
def closeIdxs : List Str → Bool → Nat → List Nat
  | [], _, _ => []
  | l :: rest, pre, i =>
    if pre then
      if "```".data.isPrefixOf l then i :: closeIdxs rest false (i+1)
      else closeIdxs rest true (i+1)
    else
      if "```".data.isPrefixOf l then
        match rest with
        | l2 :: rest2 =>
          if "```".data.isPrefixOf l2 then closeIdxs rest2 false (i+2)
          else closeIdxs (l2 :: rest2) true (i+1)
        | [] => []
      else closeIdxs rest false (i+1)

/-! ### Concrete states and engine documents used in witnesses -/

/-- A stand-in for `sha256(...).hexdigest()` used in concrete runs. -/
def shaWit : List Nat → Str :=
  fun bs => if bs.length = 2 then "a1b2".data else "c3d4".data


def engWit : Str :=
  ("1 0 obj\n<<>>\nendobj\n2 0 obj\n<</Producer(W)>>\nendobj\n" ++
   "xref\ntrailer\n<</Root 1 0 R/Info 2 0 R>>\nstartxref\n0\n%%EOF").data


def stWitC2 : PDF :=
  ⟨some "a1".data, some "b2".data, false, some "x\n".data, 3,
   [(1, ⟨"1 0 obj".data, [("/Pages".data, .tok "2 0 R".data)], none, some "x".data⟩),
    (2, ⟨"2 0 obj".data, [("/Producer".data, .tok "(W)".data)], none, some "y".data⟩),
    (4, ⟨"4 0 obj".data, [], none, some "z".data⟩)],
   [("/Root".data, .tok "1 0 R".data), ("/Info".data, .tok "2 0 R".data),
    ("/Size".data, .tok "5".data)]⟩


/-- An engine document writing its first object number with a leading zero
(`01 0 obj`): `_consume_objnum` keeps the matched digit string verbatim in
the stored object token. -/
def engC2 : Str :=
  ("01 0 obj\n<<>>\nendobj\n2 0 obj\n<</Producer(W)>>\nendobj\n" ++
   "xref\ntrailer\n<</Root 1 0 R/Info 2 0 R>>\nstartxref\n0\n%%EOF").data


def stC8ex : PDF :=
  ⟨some "aa".data, some "bb".data, false, some "x\n".data, 5,
   [(1, ⟨"1 0 obj".data, [("/Pages".data, .tok "9 9 R".data)], none, some "x".data⟩),
    (4, ⟨"4 0 obj".data, [("/Producer".data, .tok "(W)".data)], none, some "y".data⟩),
    (6, ⟨"6 0 obj".data, [], none, some "z".data⟩)],
   [("/Root".data, .tok "1 0 R".data), ("/Info".data, .tok "4 0 R".data),
    ("/Size".data, .tok "7".data)]⟩


/-! ## Theorems: the spec's claims checked against the model -/

/-! ### Helper lemmas about lists and the translator loop -/

theorem set_drop_succ {α : Type} (l : List α) (i : Nat) (a : α) :
    (l.set i a).drop (i+1) = l.drop (i+1) := by
  apply List.ext_getElem?
  intro k
  rw [List.getElem?_drop, List.getElem?_drop]
  rw [List.getElem?_set_ne (by omega)]

theorem drop_cons_of_get? {α : Type} {l : List α} {i : Nat} {a : α}
    (h : l.get? i = some a) : l.drop i = a :: l.drop (i+1) := by
  rw [List.get?_eq_some] at h
  obtain ⟨hlt, heq⟩ := h
  rw [List.drop_eq_getElem_cons hlt]
  simp [← heq, List.get_eq_getElem]

theorem drop_nil_of_get?_none {α : Type} {l : List α} {i : Nat}
    (h : l.get? i = none) : l.drop i = [] := by
  rw [List.get?_eq_none] at h
  exact List.drop_eq_nil_of_le h

theorem pyStrip_all_ws {l : Str} (h : pyStrip l = []) :
    ∀ c ∈ l, isPyWs c = true := by
  intro c hc
  unfold pyStrip pyRstrip pyLstrip at h
  have h1 : (l.dropWhile isPyWs).reverse.dropWhile isPyWs = [] := by
    have := congrArg List.reverse h
    simpa using this
  have h2 : ∀ x ∈ (l.dropWhile isPyWs).reverse, isPyWs x = true :=
    List.dropWhile_eq_nil_iff.mp h1
  have h3 : ∀ x ∈ l.dropWhile isPyWs, isPyWs x = true := by
    intro x hx
    exact h2 x (List.mem_reverse.mpr hx)
  have := List.takeWhile_append_dropWhile (p := isPyWs) (l := l)
  rw [← this] at hc
  rcases List.mem_append.mp hc with hc1 | hc1
  · exact List.mem_takeWhile_imp hc1
  · exact h3 c hc1

theorem noToggle_of_blank {l : Str} (h : pyStrip l = []) :
    "```".data.isPrefixOf l = false := by
  cases hl : l with
  | nil => rfl
  | cons c rest =>
    by_contra hcon
    rw [Bool.not_eq_false] at hcon
    have hc : c = '`' := by
      simp [List.isPrefixOf] at hcon
      exact hcon.1.symm
    have := pyStrip_all_ws h c (by rw [hl]; exact List.mem_cons_self c rest)
    rw [hc] at this
    exact absurd this (by decide)

theorem addEmptyLinesF_spec (f : Nat) : ∀ (doc body : List Str) (i : Nat),
    i ≤ (addEmptyLinesF f doc body i).2 ∧
    (∀ m, i < m → m ≤ (addEmptyLinesF f doc body i).2 →
      ∃ l, doc.get? m = some l ∧ pyStrip l = []) := by
  induction f with
  | zero =>
    intro doc body i
    simp only [addEmptyLinesF]
    exact ⟨Nat.le_refl _, fun m h1 h2 => absurd (Nat.lt_of_lt_of_le h1 h2)
      (Nat.lt_irrefl _)⟩
  | succ f ih =>
    intro doc body i
    simp only [addEmptyLinesF]
    cases hg : doc.get? (i+1) with
    | none =>
      exact ⟨Nat.le_refl _, fun m h1 h2 => absurd (Nat.lt_of_lt_of_le h1 h2)
        (Nat.lt_irrefl _)⟩
    | some l =>
      by_cases hb : (pyStrip l).isEmpty = true
      · simp only [hb, if_true]
        refine ⟨Nat.le_trans (Nat.le_succ i) (ih doc _ (i+1)).1,
          fun m h1 h2 => ?_⟩
        rcases Nat.lt_or_ge (i+1) m with hc | hc
        · exact (ih doc _ (i+1)).2 m hc h2
        · have hm : m = i + 1 := by omega
          refine ⟨l, by rw [hm]; exact hg, by rwa [List.isEmpty_iff] at hb⟩
      · simp only [hb, if_false]
        exact ⟨Nat.le_refl _, fun m h1 h2 => absurd (Nat.lt_of_lt_of_le h1 h2)
          (Nat.lt_irrefl _)⟩

theorem ulLoopF_spec (f : Nat) : ∀ (doc body : List Str) (i : Nat),
    i ≤ (ulLoopF f doc body i).2 ∧
    (∀ m, i ≤ m → m < (ulLoopF f doc body i).2 →
      ∃ l, doc.get? m = some l ∧ "* ".data.isPrefixOf l = true) := by
  induction f with
  | zero =>
    intro doc body i
    simp only [ulLoopF]
    exact ⟨Nat.le_refl _, fun m h1 h2 => absurd (Nat.lt_of_le_of_lt h1 h2)
      (Nat.lt_irrefl _)⟩
  | succ f ih =>
    intro doc body i
    simp only [ulLoopF]
    cases hg : doc.get? i with
    | none =>
      exact ⟨Nat.le_refl _, fun m h1 h2 => absurd (Nat.lt_of_le_of_lt h1 h2)
        (Nat.lt_irrefl _)⟩
    | some l =>
      by_cases hp : "* ".data.isPrefixOf l = true
      · simp only [hp, if_true]
        refine ⟨Nat.le_trans (Nat.le_succ i) (ih doc _ (i+1)).1,
          fun m h1 h2 => ?_⟩
        rcases Nat.lt_or_ge m (i+1) with hc | hc
        · have hm : m = i := by omega
          refine ⟨l, by rw [hm]; exact hg, hp⟩
        · exact (ih doc _ (i+1)).2 m hc h2
      · simp only [hp, if_false]
        exact ⟨Nat.le_refl _, fun m h1 h2 => absurd (Nat.lt_of_le_of_lt h1 h2)
          (Nat.lt_irrefl _)⟩

theorem ulLoopF_pos (f : Nat) (doc body : List Str) (i : Nat) (l : Str)
    (hg : doc.get? i = some l) (hp : "* ".data.isPrefixOf l = true) (hf : 0 < f) :
    i + 1 ≤ (ulLoopF f doc body i).2 := by
  cases f with
  | zero => omega
  | succ f =>
    simp only [ulLoopF, hg, hp, if_true]
    exact (ulLoopF_spec f doc _ (i+1)).1

theorem closeIdxs_cons_noToggle {l : Str} {rest : List Str} {j : Nat}
    (hns : "```".data.isPrefixOf l = false) :
    closeIdxs (l :: rest) false j = closeIdxs rest false (j+1) := by
  rw [closeIdxs.eq_def]
  simp [hns]

theorem closeIdxs_cons_close {l : Str} {rest : List Str} {j : Nat}
    (ht : "```".data.isPrefixOf l = true) :
    closeIdxs (l :: rest) true j = j :: closeIdxs rest false (j+1) := by
  rw [closeIdxs.eq_def]
  simp [ht]

theorem closeIdxs_cons_inPre {l : Str} {rest : List Str} {j : Nat}
    (hns : "```".data.isPrefixOf l = false) :
    closeIdxs (l :: rest) true j = closeIdxs rest true (j+1) := by
  rw [closeIdxs.eq_def]
  simp [hns]

theorem closeIdxs_cons_open {l l2 : Str} {rest : List Str} {j : Nat}
    (ht : "```".data.isPrefixOf l = true)
    (hns : "```".data.isPrefixOf l2 = false) :
    closeIdxs (l :: l2 :: rest) false j = closeIdxs (l2 :: rest) true (j+1) := by
  rw [closeIdxs.eq_def]
  simp [ht, hns]

theorem closeIdxs_cons_dbl {l l2 : Str} {rest : List Str} {j : Nat}
    (ht : "```".data.isPrefixOf l = true)
    (ht2 : "```".data.isPrefixOf l2 = true) :
    closeIdxs (l :: l2 :: rest) false j = closeIdxs rest false (j+2) := by
  rw [closeIdxs.eq_def]
  simp [ht, ht2]

theorem closeIdxs_single_open {l : Str} {j : Nat}
    (ht : "```".data.isPrefixOf l = true) :
    closeIdxs [l] false j = [] := by
  rw [closeIdxs.eq_def]
  simp [ht]

theorem closeIdxs_skip (doc : List Str) (i j : Nat) (hij : i ≤ j)
    (hseg : ∀ m, i ≤ m → m < j → ∀ l, doc.get? m = some l →
      "```".data.isPrefixOf l = false) :
    closeIdxs (doc.drop i) false i = closeIdxs (doc.drop j) false j := by
  induction j, hij using Nat.le_induction with
  | base => rfl
  | succ j hij ih =>
    have step : closeIdxs (doc.drop j) false j
        = closeIdxs (doc.drop (j+1)) false (j+1) := by
      cases hg : doc.get? j with
      | none =>
        have hg2 : doc.get? (j+1) = none := by
          rw [List.get?_eq_none] at hg ⊢
          omega
        rw [drop_nil_of_get?_none hg, drop_nil_of_get?_none hg2]
        rfl
      | some l =>
        rw [drop_cons_of_get? hg]
        exact closeIdxs_cons_noToggle (hseg j hij (Nat.lt_succ_self j) l hg)
    rw [← step]
    exact ih (fun m h1 h2 l hg => hseg m h1 (by omega) l hg)


theorem get?_set_ne' {α : Type} {l : List α} {i j : Nat} {a : α} (h : ¬ i = j) :
    (l.set i a).get? j = l.get? j := by
  rw [List.get?_eq_getElem?, List.get?_eq_getElem?, List.getElem?_set_ne h]

theorem get?_set_self' {α : Type} {l : List α} {i : Nat} {a : α}
    (h : i < l.length) : (l.set i a).get? i = some a := by
  rw [List.get?_eq_getElem?, List.getElem?_set_self h]

theorem noToggle_of_head {c : Char} {rest : Str} (hc : ¬ c = '`') :
    "```".data.isPrefixOf (c :: rest) = false := by
  simp [List.isPrefixOf]
  intro h
  exact absurd h.symm hc

theorem headOf_isPrefixOf {c : Char} {p l : Str}
    (h : (c :: p).isPrefixOf l = true) : ∃ rest, l = c :: rest := by
  cases l with
  | nil => simp [List.isPrefixOf] at h
  | cons d r =>
    simp [List.isPrefixOf] at h
    exact ⟨r, by rw [h.1]⟩

theorem noToggle_of_star {l : Str} (h : "* ".data.isPrefixOf l = true) :
    "```".data.isPrefixOf l = false := by
  obtain ⟨rest, hrfl⟩ := headOf_isPrefixOf (p := " ".data) h
  rw [hrfl]
  exact noToggle_of_head (by decide)

theorem noToggle_of_hash2 {l : Str} (h : "##".data.isPrefixOf l = true) :
    "```".data.isPrefixOf l = false := by
  obtain ⟨rest, hrfl⟩ := headOf_isPrefixOf (p := "#".data) h
  rw [hrfl]
  exact noToggle_of_head (by decide)

theorem drop_congr_above {α : Type} {l1 l2 : List α}
    (a : Nat) (h : ∀ j, a ≤ j → l1.get? j = l2.get? j) : l1.drop a = l2.drop a := by
  apply List.ext_getElem?
  intro k
  rw [List.getElem?_drop, List.getElem?_drop]
  have := h (a+k) (by omega)
  rwa [List.get?_eq_getElem?, List.get?_eq_getElem?] at this

theorem seg_noToggle_of_blankSpec {doc : List Str} {a b : Nat}
    (hb : ∀ m, a < m → m ≤ b → ∃ l, doc.get? m = some l ∧ pyStrip l = []) :
    ∀ m, a + 1 ≤ m → m < b + 1 → ∀ l, doc.get? m = some l →
      "```".data.isPrefixOf l = false := by
  intro m h1 h2 l hget
  obtain ⟨l', hget', hblank⟩ := hb m (by omega) (by omega)
  rw [hget] at hget'
  cases Option.some.inj hget'
  exact noToggle_of_blank hblank

theorem pgSubtitle_spec (doc body : List Str) (i : Nat) :
    (pgSubtitle doc body i).2.1 = i ∨
    ((pgSubtitle doc body i).2.1 = i + 1 ∧
     ∀ l, doc.get? (i+1) = some l → "```".data.isPrefixOf l = false) := by
  unfold pgSubtitle
  cases hg : doc.get? (i+1) with
  | none => exact Or.inl rfl
  | some l2 =>
    dsimp only
    by_cases hc : ("##".data.isPrefixOf l2 = true) ∧ slice l2 2 3 ≠ "#".data
    · rw [if_pos hc]
      refine Or.inr ⟨rfl, fun l hl => ?_⟩
      cases Option.some.inj hl
      exact noToggle_of_hash2 hc.1
    · rw [if_neg hc]
      exact Or.inl rfl

theorem titleChain_le (f : Nat) (doc b1 b2 B : List Str) (i : Nat) :
    i ≤ (addEmptyLinesF f doc b2 (pgSubtitle doc B (addEmptyLinesF f doc b1 i).2).2.1).2 := by
  have h1 := (addEmptyLinesF_spec f doc b1 i).1
  rcases pgSubtitle_spec doc B (addEmptyLinesF f doc b1 i).2 with hs | ⟨hs, _⟩
  · rw [hs]
    have h2 := (addEmptyLinesF_spec f doc b2 (addEmptyLinesF f doc b1 i).2).1
    omega
  · rw [hs]
    have h2 := (addEmptyLinesF_spec f doc b2 ((addEmptyLinesF f doc b1 i).2 + 1)).1
    omega

theorem titleChain_seg (f : Nat) (doc b1 b2 B : List Str) (i : Nat) :
    ∀ m, i < m →
      m ≤ (addEmptyLinesF f doc b2 (pgSubtitle doc B (addEmptyLinesF f doc b1 i).2).2.1).2 →
      ∀ l, doc.get? m = some l → "```".data.isPrefixOf l = false := by
  intro m h1 h2 l hget
  have ha2 := (addEmptyLinesF_spec f doc b1 i).2
  rcases Nat.lt_or_ge ((addEmptyLinesF f doc b1 i).2) m with hc | hc
  · rcases pgSubtitle_spec doc B (addEmptyLinesF f doc b1 i).2 with hs | ⟨hs, hsub⟩
    · rw [hs] at h2
      obtain ⟨l', hg2, hblank⟩ := (addEmptyLinesF_spec f doc b2 (addEmptyLinesF f doc b1 i).2).2 m hc h2
      rw [hget] at hg2
      cases Option.some.inj hg2
      exact noToggle_of_blank hblank
    · rw [hs] at h2
      rcases Nat.lt_or_ge ((addEmptyLinesF f doc b1 i).2 + 1) m with hc2 | hc2
      · obtain ⟨l', hg2, hblank⟩ := (addEmptyLinesF_spec f doc b2 ((addEmptyLinesF f doc b1 i).2 + 1)).2 m hc2 h2
        rw [hget] at hg2
        cases Option.some.inj hg2
        exact noToggle_of_blank hblank
      · have hm : m = (addEmptyLinesF f doc b1 i).2 + 1 := by omega
        exact hsub l (by rw [← hm]; exact hget)
  · obtain ⟨l', hg2, hblank⟩ := ha2 m h1 hc
    rw [hget] at hg2
    cases Option.some.inj hg2
    exact noToggle_of_blank hblank

theorem pgTitleBranch_spec {st : PG} {line : Str} {st1 : PG}
    (h : pgTitleBranch st line = .ok st1) :
    st1.doc = st.doc ∧ st1.pre = st.pre ∧ st.i ≤ st1.i ∧
    (∀ m, st.i < m → m ≤ st1.i → ∀ l, st.doc.get? m = some l →
      "```".data.isPrefixOf l = false) := by
  simp only [pgTitleBranch, addEmptyLines] at h
  split at h
  · exact absurd h (by simp)
  · cases h
    exact ⟨rfl, rfl, titleChain_le _ _ _ _ _ _, titleChain_seg _ _ _ _ _ _⟩

theorem pgLinkBranch_spec {sh : Str} {st : PG} {line : Str} {st1 : PG}
    (h : pgLinkBranch sh st line = .ok st1) :
    st1.doc.length = st.doc.length ∧
    (∀ j, ¬ j = st.i → st1.doc.get? j = st.doc.get? j) ∧
    st1.i = st.i ∧ st1.pre = st.pre := by
  simp only [pgLinkBranch] at h
  split at h
  · exact absurd h (by simp)
  · split at h <;> split at h <;>
      (try split at h) <;> (try split at h) <;>
      (cases h <;>
       refine ⟨by simp [List.length_set], fun j hj => ?_, rfl, rfl⟩ <;>
       simp [List.get?_eq_getElem?,
         List.getElem?_set_ne (show st.i ≠ j from fun hh => hj hh.symm)])


theorem lt_sub_succ_of_chain {j a R : Nat} (h1 : j < a) (h2 : a + 1 ≤ R) :
    j < R - 1 + 1 := by omega

theorem sub_one_add_one {R a : Nat} (h : a + 1 ≤ R) : R - 1 + 1 = R := by omega

theorem ulLoop_pos (doc body : List Str) (i : Nat) (l : Str)
    (hg : doc.get? i = some l) (hp : "* ".data.isPrefixOf l = true) :
    i + 1 ≤ (ulLoop doc body i).2 :=
  ulLoopF_pos _ _ _ _ _ hg hp (Nat.succ_pos _)

theorem seg_noToggle_of_starSpec {doc : List Str} {a b : Nat}
    (hb : ∀ m, a ≤ m → m < b → ∃ l, doc.get? m = some l ∧
      "* ".data.isPrefixOf l = true) :
    ∀ m, a ≤ m → m < b → ∀ l, doc.get? m = some l →
      "```".data.isPrefixOf l = false := by
  intro m h1 h2 l hget
  obtain ⟨l', hget', hstar⟩ := hb m h1 h2
  rw [hget] at hget'
  cases Option.some.inj hget'
  exact noToggle_of_star hstar

theorem ulLoop_seg (doc body : List Str) (i : Nat) :
    ∀ m, i ≤ m → m < (ulLoop doc body i).2 → ∀ l, doc.get? m = some l →
      "```".data.isPrefixOf l = false :=
  seg_noToggle_of_starSpec (ulLoopF_spec _ _ _ _).2

theorem addEmptyLines_le (doc body : List Str) (i : Nat) :
    i ≤ (addEmptyLines doc body i).2 :=
  (addEmptyLinesF_spec _ _ _ _).1

theorem addEmptyLines_seg (doc body : List Str) (i : Nat) :
    ∀ m, i + 1 ≤ m → m < (addEmptyLines doc body i).2 + 1 →
      ∀ l, doc.get? m = some l → "```".data.isPrefixOf l = false :=
  seg_noToggle_of_blankSpec (addEmptyLinesF_spec _ _ _ _).2

theorem pgLoop_main (sh : Str) : ∀ (f : Nat) (st st' : PG),
    pgLoop sh f st = .ok st' →
    st'.doc.length = st.doc.length ∧
    (∀ j, j < st.i → st'.doc.get? j = st.doc.get? j) ∧
    (∀ k ∈ closeIdxs (st.doc.drop st.i) st.pre st.i,
      st'.doc.get? k = some "```".data) := by
  intro f
  induction f with
  | zero =>
    intro st st' h
    simp [pgLoop] at h
  | succ f ih =>
    intro st st' h
    cases hg : st.doc.get? st.i with
    | none =>
      simp only [pgLoop, hg] at h
      cases h
      refine ⟨rfl, fun j hj => rfl, ?_⟩
      rw [drop_nil_of_get?_none hg]
      intro k hk
      simp [closeIdxs] at hk
    | some line =>
      simp only [pgLoop, hg] at h
      cases hb : pgBody sh st line with
      | error e =>
        rw [hb] at h
        simp at h
      | ok st1 =>
        rw [hb] at h
        obtain ⟨IHlen, IHfroz, IHclose⟩ := ih _ _ h
        cases hpre : st.pre with
        | true =>
          cases htog : "```".data.isPrefixOf line with
          | true =>
            -- closing toggle line: rewritten to the bare triple backtick
            simp only [pgBody, hpre, htog, true_and, if_true] at hb
            cases hb
            dsimp only at IHlen IHfroz IHclose
            refine ⟨by simpa using IHlen, ?_, ?_⟩
            · intro j hj
              rw [IHfroz j (by omega)]
              exact get?_set_ne' (by omega)
            · rw [drop_cons_of_get? hg, closeIdxs_cons_close htog]
              intro k hk
              rcases List.mem_cons.mp hk with hk1 | hk1
              · rw [hk1]
                rw [IHfroz st.i (by omega)]
                have hlt : st.i < st.doc.length := by
                  rw [List.get?_eq_some] at hg
                  exact hg.1
                exact get?_set_self' hlt
              · refine IHclose k ?_
                rw [set_drop_succ]
                exact hk1
          | false =>
            -- verbatim line inside a preformatted block
            simp only [pgBody, hpre, htog, Bool.false_eq_true, and_false,
              if_false, if_true] at hb
            cases hb
            dsimp only at IHlen IHfroz IHclose
            refine ⟨IHlen, fun j hj => IHfroz j (by omega), ?_⟩
            rw [drop_cons_of_get? hg, closeIdxs_cons_inPre htog]
            intro k hk
            exact IHclose k hk
        | false =>
          cases htog : "```".data.isPrefixOf line with
          | true =>
            -- toggle line outside a preformatted block
            simp only [pgBody, hpre, htog, Bool.false_eq_true, false_and,
              if_false, if_true] at hb
            cases hg2 : st.doc.get? (st.i + 1) with
            | some l2 =>
              rw [hg2] at hb
              cases htog2 : "```".data.isPrefixOf l2 with
              | true =>
                simp only [htog2, if_true] at hb
                cases hb
                dsimp only at IHlen IHfroz IHclose
                refine ⟨IHlen, fun j hj => IHfroz j (by omega), ?_⟩
                rw [drop_cons_of_get? hg, drop_cons_of_get? hg2,
                  closeIdxs_cons_dbl htog htog2]
                intro k hk
                exact IHclose k hk
              | false =>
                simp only [htog2, Bool.false_eq_true, if_false] at hb
                cases hb
                dsimp only at IHlen IHfroz IHclose
                refine ⟨IHlen, fun j hj => IHfroz j (by omega), ?_⟩
                rw [drop_cons_of_get? hg, drop_cons_of_get? hg2,
                  closeIdxs_cons_open htog htog2, ← drop_cons_of_get? hg2]
                intro k hk
                exact IHclose k hk
            | none =>
              rw [hg2] at hb
              cases hb
              dsimp only at IHlen IHfroz IHclose
              refine ⟨IHlen, fun j hj => IHfroz j (by omega), ?_⟩
              rw [drop_cons_of_get? hg, drop_nil_of_get?_none hg2,
                closeIdxs_single_open htog]
              intro k hk
              simp at hk
          | false =>
            cases h3 : "###".data.isPrefixOf line with
            | true =>
              simp only [pgBody, hpre, htog, h3, Bool.false_eq_true, false_and,
                if_false, if_true] at hb
              cases hb
              dsimp only at IHlen IHfroz IHclose
              refine ⟨IHlen, ?_, ?_⟩
              · intro j hj
                exact IHfroz j
                  (Nat.lt_succ_of_lt (Nat.lt_of_lt_of_le hj (addEmptyLines_le _ _ _)))
              · intro k hk
                rw [drop_cons_of_get? hg, closeIdxs_cons_noToggle htog] at hk
                refine IHclose k ?_
                exact (closeIdxs_skip st.doc (st.i+1) _
                  (Nat.succ_le_succ (addEmptyLines_le _ _ _))
                  (addEmptyLines_seg _ _ _)) ▸ hk
            | false =>
              cases h4 : "##".data.isPrefixOf line with
              | true =>
                simp only [pgBody, hpre, htog, h3, h4, Bool.false_eq_true,
                  false_and, if_false, if_true] at hb
                cases hb
                dsimp only at IHlen IHfroz IHclose
                refine ⟨IHlen, ?_, ?_⟩
                · intro j hj
                  exact IHfroz j
                    (Nat.lt_succ_of_lt (Nat.lt_of_lt_of_le hj (addEmptyLines_le _ _ _)))
                · intro k hk
                  rw [drop_cons_of_get? hg, closeIdxs_cons_noToggle htog] at hk
                  refine IHclose k ?_
                  exact (closeIdxs_skip st.doc (st.i+1) _
                    (Nat.succ_le_succ (addEmptyLines_le _ _ _))
                    (addEmptyLines_seg _ _ _)) ▸ hk
              | false =>
                cases h5 : "#".data.isPrefixOf line with
                | true =>
                  cases hgt : st.gotTitle with
                  | false =>
                    simp only [pgBody, hpre, htog, h3, h4, h5, hgt,
                      Bool.false_eq_true, false_and, if_false, if_true,
                      not_false_eq_true] at hb
                    obtain ⟨td, tp, tle, tseg⟩ := pgTitleBranch_spec hb
                    dsimp only at IHlen IHfroz IHclose
                    refine ⟨by rw [IHlen, td], ?_, ?_⟩
                    · intro j hj
                      rw [IHfroz j (by omega), td]
                    · intro k hk
                      rw [drop_cons_of_get? hg,
                        closeIdxs_cons_noToggle htog] at hk
                      refine IHclose k ?_
                      rw [td, tp, hpre]
                      exact (closeIdxs_skip st.doc (st.i+1) (st1.i+1) (by omega)
                        (fun m hm1 hm2 l hl => tseg m (by omega) (by omega) l hl)) ▸ hk
                  | true =>
                    simp only [pgBody, hpre, htog, h3, h4, h5, hgt,
                      Bool.false_eq_true, false_and, if_false, if_true,
                      not_true_eq_false] at hb
                    cases hb
                    dsimp only at IHlen IHfroz IHclose
                    refine ⟨IHlen, ?_, ?_⟩
                    · intro j hj
                      exact IHfroz j
                        (Nat.lt_succ_of_lt (Nat.lt_of_lt_of_le hj (addEmptyLines_le _ _ _)))
                    · intro k hk
                      rw [drop_cons_of_get? hg, closeIdxs_cons_noToggle htog] at hk
                      refine IHclose k ?_
                      exact (closeIdxs_skip st.doc (st.i+1) _
                        (Nat.succ_le_succ (addEmptyLines_le _ _ _))
                        (addEmptyLines_seg _ _ _)) ▸ hk
                | false =>
                  cases h6 : ">".data.isPrefixOf line with
                  | true =>
                    simp only [pgBody, hpre, htog, h3, h4, h5, h6,
                      Bool.false_eq_true, false_and, if_false, if_true] at hb
                    cases hb
                    dsimp only at IHlen IHfroz IHclose
                    refine ⟨IHlen, fun j hj => IHfroz j (by omega), ?_⟩
                    rw [drop_cons_of_get? hg, closeIdxs_cons_noToggle htog]
                    intro k hk
                    exact IHclose k hk
                  | false =>
                    cases h7 : "* ".data.isPrefixOf line with
                    | true =>
                      simp only [pgBody, hpre, htog, h3, h4, h5, h6, h7,
                        Bool.false_eq_true, false_and, if_false, if_true] at hb
                      cases hb
                      dsimp only at IHlen IHfroz IHclose
                      refine ⟨IHlen, ?_, ?_⟩
                      · intro j hj
                        exact IHfroz j
                          (lt_sub_succ_of_chain hj (ulLoop_pos _ _ _ _ hg h7))
                      · intro k hk
                        refine IHclose k ?_
                        rw [sub_one_add_one (ulLoop_pos _ _ _ _ hg h7)]
                        exact (closeIdxs_skip st.doc st.i _
                          (Nat.le_trans (Nat.le_succ st.i) (ulLoop_pos _ _ _ _ hg h7))
                          (ulLoop_seg _ _ _)) ▸ hk
                    | false =>
                      cases h8 : "=>".data.isPrefixOf line with
                      | true =>
                        simp only [pgBody, hpre, htog, h3, h4, h5, h6, h7, h8,
                          Bool.false_eq_true, false_and, if_false, if_true] at hb
                        obtain ⟨llen, lget, li, lp⟩ := pgLinkBranch_spec hb
                        dsimp only at IHlen IHfroz IHclose
                        refine ⟨by rw [IHlen, llen], ?_, ?_⟩
                        · intro j hj
                          rw [IHfroz j (by omega)]
                          exact lget j (by omega)
                        · intro k hk
                          rw [drop_cons_of_get? hg,
                            closeIdxs_cons_noToggle htog] at hk
                          refine IHclose k ?_
                          rw [li, lp, hpre,
                            drop_congr_above (st.i+1) (fun j hj => lget j (by omega))]
                          exact hk
                      | false =>
                        cases h9 : (pyStrip line).isEmpty with
                        | true =>
                          simp only [pgBody, hpre, htog, h3, h4, h5, h6, h7, h8,
                            h9, Bool.false_eq_true, false_and, if_false,
                            if_true] at hb
                          cases hb
                          dsimp only at IHlen IHfroz IHclose
                          refine ⟨IHlen, fun j hj => IHfroz j (by omega), ?_⟩
                          rw [drop_cons_of_get? hg, closeIdxs_cons_noToggle htog]
                          intro k hk
                          exact IHclose k hk
                        | false =>
                          simp only [pgBody, hpre, htog, h3, h4, h5, h6, h7, h8,
                            h9, Bool.false_eq_true, false_and, if_false,
                            if_true] at hb
                          cases hb
                          dsimp only at IHlen IHfroz IHclose
                          refine ⟨IHlen, fun j hj => IHfroz j (by omega), ?_⟩
                          rw [drop_cons_of_get? hg, closeIdxs_cons_noToggle htog]
                          intro k hk
                          exact IHclose k hk

/--
C5 counterexample.  The claim says an input starting with `%PDF-` whose
second line does not start with the magic signature raises
`MissingGemdocSignature`, and that in every other case no error is raised.
The one-line input `"%PDF-1.7"` starts with `%PDF-` and has no second line
starting with the signature, yet `is_gemdoc_pdf` raises `IndexError`
(from `splitlines()[1]`), which is neither the claimed error nor error-free.
-/
theorem C5_counterexample :
    isGemdocPdf "%PDF-1.7".data = .error .indexError ∧
    (Except.error GErr.indexError : Except GErr (Option Bool)) ≠
      .error .missingGemdocSignature ∧
    ∀ v, (Except.error GErr.indexError : Except GErr (Option Bool)) ≠ .ok v := by
  refine ⟨rfl, by simp, fun v => by simp⟩

/--
C5 (amended): for every input string, if the input (after optional leading
whitespace) starts with `%PDF-` and a second line exists and starts with the
magic signature, the input is classified as a gemdoc polyglot; if it starts
with `%PDF-` and a second line exists but does not start with the signature,
`MissingGemdocSignature` is raised; if it starts with `%PDF-` but has no
second line, a generic `IndexError` is raised; in every other case the input
is treated as raw text/gemini (the function falls through, returning `None`)
and no error is raised.
-/
theorem C5_polyglot_detection (doc : Str) :
    (("%PDF-".data.isPrefixOf (pyLstrip doc)) = false →
        isGemdocPdf doc = .ok none)
  ∧ (∀ l2, ("%PDF-".data.isPrefixOf (pyLstrip doc)) = true →
        (pySplitlines (pyLstrip doc)).get? 1 = some l2 →
        magicLine.isPrefixOf l2 = true →
        isGemdocPdf doc = .ok (some true))
  ∧ (∀ l2, ("%PDF-".data.isPrefixOf (pyLstrip doc)) = true →
        (pySplitlines (pyLstrip doc)).get? 1 = some l2 →
        magicLine.isPrefixOf l2 = false →
        isGemdocPdf doc = .error .missingGemdocSignature)
  ∧ (("%PDF-".data.isPrefixOf (pyLstrip doc)) = true →
        (pySplitlines (pyLstrip doc)).get? 1 = none →
        isGemdocPdf doc = .error .indexError) := by
  refine ⟨?_, ?_, ?_, ?_⟩
  · intro h
    simp [isGemdocPdf, h]
  · intro l2 h h1 h2
    rw [List.get?_eq_getElem?] at h1
    simp [isGemdocPdf, h, h1, h2]
  · intro l2 h h1 h2
    rw [List.get?_eq_getElem?] at h1
    simp [isGemdocPdf, h, h1, h2]
  · intro h h1
    rw [List.get?_eq_getElem?] at h1
    simp [isGemdocPdf, h, h1]

/-- C5 witness: the amended detector behaviour at concrete inputs. -/
theorem C5_polyglot_detection_witness :
    isGemdocPdf "hello".data = .ok none ∧
    isGemdocPdf "%PDF-1.7\nnope".data = .error .missingGemdocSignature := by
  constructor
  · exact (C5_polyglot_detection "hello".data).1 (by decide)
  · exact (C5_polyglot_detection "%PDF-1.7\nnope".data).2.2.1 "nope".data
      (by decide) (by decide) (by decide)

/--
C6 counterexample.  The claim states single-space joining, but the code
writes `f'=> {link}{"  " if label else ""}{label}'` — two spaces before the
label.  At the claim's own example inputs, the exported line is not the
claimed single-space form.
-/
theorem C6_counterexample :
    parseGeminiSrc "=> //example.org/ Example\n".data [] ≠
      .ok "=> gemini://example.org/ Example".data ∧
    parseGeminiSrc "=> /x Label\n".data [(MKey.url, "gemini://host/a/b".data)] ≠
      .ok "=> gemini://host/x Label".data := by
  constructor
  · intro h
    have h0 : parseGeminiSrc "=> //example.org/ Example\n".data [] =
        .ok "=> gemini://example.org/  Example".data := by rfl
    rw [h0] at h
    injection h with h2
    exact absurd h2 (by decide)
  · intro h
    have h0 : parseGeminiSrc "=> /x Label\n".data
        [(MKey.url, "gemini://host/a/b".data)] =
        .ok "=> gemini://host/x  Label".data := by rfl
    rw [h0] at h
    injection h with h2
    exact absurd h2 (by decide)

/--
C6 (amended): link-line rewriting in the exported source produces `'=> '`,
the absolute link, then **two** spaces, then the label: for input
`'=> //example.org/ Example\n'` with no url metadata the exported source is
`'=> gemini://example.org/  Example'`, and for `'=> /x Label\n'` with url
metadata `gemini://host/a/b` it is `'=> gemini://host/x  Label'`.
-/
theorem C6_link_rewriting :
    parseGeminiSrc "=> //example.org/ Example\n".data [] =
      .ok "=> gemini://example.org/  Example".data ∧
    parseGeminiSrc "=> /x Label\n".data [(MKey.url, "gemini://host/a/b".data)] =
      .ok "=> gemini://host/x  Label".data := by
  exact ⟨rfl, rfl⟩

/--
C7: title synthesis.  For a document `'# A'` / `'## B'` the synthesized
title is `'A: B'`; with terminal punctuation, `'# A.'` / `'## B'` gives
`'A. B'` (single space, no colon).
-/
theorem C7_title_synthesis :
    (parseGeminiMd "# A\n## B\n".data []).map (fun m => mdGet m MKey.title) =
      .ok (some "A: B".data) ∧
    (parseGeminiMd "# A.\n## B\n".data []).map (fun m => mdGet m MKey.title) =
      .ok (some "A. B".data) := by
  exact ⟨rfl, rfl⟩

/--
C9 counterexample.  The claim says every `%!GEMDOC` line is removed from the
body and parsed into the metadata mapping.  The code has no `%!GEMDOC`
handling at all: on input `'%!GEMDOC title=X'` the exported source keeps the
line verbatim and the metadata mapping stays empty (no `title` entry, and no
`UnsupportedMetadataKey` error is possible).
-/
theorem C9_counterexample :
    parseGeminiSrc "%!GEMDOC title=X".data [] =
      .ok "%!GEMDOC title=X".data ∧
    parseGeminiMd "%!GEMDOC title=X".data [] = .ok [] := by
  exact ⟨rfl, rfl⟩


/--
C10: in the gemini source returned by the translator, every line that closes
a preformatted block (as characterised by the `closeIdxs` state machine over
the input lines) is replaced by the bare three-character line made of three
backticks; the exported source has exactly one line per input line, and so
it differs from the input lines whenever a closing toggle line carried
trailing text.
-/
theorem C10_closing_toggle_lines (docStr : Str) (md : Md) (src : Str)
    (h : parseGeminiSrc docStr md = .ok src) :
    ∃ outLines : List Str,
      src = strJoinNl outLines ∧
      outLines.length = (pySplitlines docStr).length ∧
      (∀ k ∈ closeIdxs (pySplitlines docStr) false 0,
        outLines.get? k = some "```".data) ∧
      (∀ k ∈ closeIdxs (pySplitlines docStr) false 0,
        (pySplitlines docStr).get? k ≠ some "```".data →
        outLines ≠ pySplitlines docStr) := by
  unfold parseGeminiSrc parseGemini at h
  simp only [Except.map] at h
  cases hp : pgLoop ((urlparseM ((mdGet md .url).getD [])).netloc)
      ((pySplitlines docStr).length + 1)
      { body := [], doc := pySplitlines docStr, i := 0, gotTitle := false,
        pre := false, md := md } with
  | error e =>
    rw [hp] at h
    simp at h
  | ok stf =>
    rw [hp] at h
    simp only [Except.ok.injEq] at h
    have hsrc : src = strJoinNl stf.doc := h.symm
    obtain ⟨hlen, _, hclose⟩ := pgLoop_main _ _ _ _ hp
    dsimp only at hlen hclose
    rw [List.drop_zero] at hclose
    refine ⟨stf.doc, hsrc, hlen, fun k hk => hclose k hk, ?_⟩
    intro k hk hne heq
    have h1 := hclose k hk
    rw [heq] at h1
    exact hne h1

/-- C10 witness at a concrete document with a closing toggle line carrying
trailing text. -/
theorem C10_closing_toggle_lines_witness :
    parseGeminiSrc "```x\ny\n``` trailing\nafter".data [] =
      .ok "```x\ny\n```\nafter".data ∧
    (∃ outLines : List Str,
      "```x\ny\n```\nafter".data = strJoinNl outLines ∧
      outLines.length = (pySplitlines "```x\ny\n``` trailing\nafter".data).length ∧
      (∀ k ∈ closeIdxs (pySplitlines "```x\ny\n``` trailing\nafter".data) false 0,
        outLines.get? k = some "```".data) ∧
      (∀ k ∈ closeIdxs (pySplitlines "```x\ny\n``` trailing\nafter".data) false 0,
        (pySplitlines "```x\ny\n``` trailing\nafter".data).get? k ≠ some "```".data →
        outLines ≠ pySplitlines "```x\ny\n``` trailing\nafter".data)) :=
  ⟨rfl, C10_closing_toggle_lines "```x\ny\n``` trailing\nafter".data [] _ rfl⟩

/--
C9 (amended): lines beginning with `%!GEMDOC` receive no special handling.
No line is ever removed from the body (the exported source has exactly one
line per input line), a `%!GEMDOC KEY=VALUE` line is kept verbatim in the
exported source, is rendered as an ordinary paragraph in the html body, and
contributes nothing to the metadata mapping; no `UnsupportedMetadataKey`
failure exists in the code.
-/
theorem C9_magic_lines_kept :
    (∀ docStr md src, parseGeminiSrc docStr md = .ok src →
      ∃ outLines : List Str, src = strJoinNl outLines ∧
        outLines.length = (pySplitlines docStr).length) ∧
    parseGeminiSrc "%!GEMDOC title=X\nbody".data [] =
      .ok "%!GEMDOC title=X\nbody".data ∧
    parseGeminiMd "%!GEMDOC title=X\nbody".data [] = .ok [] ∧
    (parseGemini "%!GEMDOC title=X\nbody".data []).map (fun r => r.2.1) =
      .ok ("<html><head>\n<colophon></colophon>\n</head><body>\n<p>%!GEMDOC title=X</p>\n<p>body</p>\n</body></html>".data) := by
  refine ⟨?_, rfl, rfl, rfl⟩
  intro docStr md src h
  unfold parseGeminiSrc parseGemini at h
  simp only [Except.map] at h
  cases hp : pgLoop ((urlparseM ((mdGet md .url).getD [])).netloc)
      ((pySplitlines docStr).length + 1)
      { body := [], doc := pySplitlines docStr, i := 0, gotTitle := false,
        pre := false, md := md } with
  | error e =>
    rw [hp] at h
    simp at h
  | ok stf =>
    rw [hp] at h
    simp only [Except.ok.injEq] at h
    have hsrc : src = strJoinNl stf.doc := h.symm
    obtain ⟨hlen, _, _⟩ := pgLoop_main _ _ _ _ hp
    exact ⟨stf.doc, hsrc, hlen⟩

/-- C9 witness: the amended no-line-removed statement at a concrete input. -/
theorem C9_magic_lines_kept_witness :
    parseGeminiSrc "a\nb".data [] = .ok "a\nb".data ∧
    (∃ outLines : List Str, ("a\nb".data : Str) = strJoinNl outLines ∧
      outLines.length = (pySplitlines "a\nb".data).length) :=
  ⟨rfl, C9_magic_lines_kept.1 "a\nb".data [] "a\nb".data rfl⟩

/-! ### The PDF layer: encoding, dictionary and serializer lemmas -/


theorem utf8Encode_cons (c : Char) (r : Str) :
    utf8Encode (c :: r) = utf8EncodeChar c ++ utf8Encode r := rfl

theorem utf8Encode_append (a b : Str) :
    utf8Encode (a ++ b) = utf8Encode a ++ utf8Encode b := by
  induction a with
  | nil => rfl
  | cons c r ih =>
    rw [List.cons_append, utf8Encode_cons, utf8Encode_cons, ih, List.append_assoc]

theorem byteLen_append (a b : Str) : byteLen (a ++ b) = byteLen a + byteLen b := by
  simp [byteLen, utf8Encode_append]

theorem dGet_dSet_self (d : PDict) (k : Str) (v : PVal) :
    dGet (dSet d k v) k = some v := by
  induction d with
  | nil => simp [dGet, dSet]
  | cons p r ih =>
    obtain ⟨k', v'⟩ := p
    by_cases h : k' = k
    · simp [dSet, dGet, h]
    · simp only [dSet]
      rw [if_neg (by simpa using h)]
      simpa [dGet, h] using ih

theorem dGet_dSet_ne (d : PDict) (k k' : Str) (v : PVal) (h : ¬ k = k') :
    dGet (dSet d k v) k' = dGet d k' := by
  induction d with
  | nil => simp [dGet, dSet, h]
  | cons p r ih =>
    obtain ⟨k1, v1⟩ := p
    by_cases h1 : k1 = k
    · simp only [dSet]
      rw [if_pos (by simpa using h1)]
      simp [dGet, h, h1]
    · simp only [dSet]
      rw [if_neg (by simpa using h1)]
      by_cases h2 : k1 = k'
      · simp [dGet, h2]
      · simpa [dGet, h2] using ih

theorem oGet_oSet_self (t : ObjTable) (n : Nat) (o : PObj) :
    oGet (oSet t n o) n = some o := by
  induction t with
  | nil => simp [oGet, oSet]
  | cons p r ih =>
    obtain ⟨n', o'⟩ := p
    by_cases h : n' = n
    · simp [oSet, oGet, h]
    · simp only [oSet]
      rw [if_neg (by simpa using h)]
      simpa [oGet, h] using ih

theorem oGet_mem_keys (t : ObjTable) (n : Nat) (o : PObj)
    (h : oGet t n = some o) : n ∈ t.map (·.1) := by
  induction t with
  | nil => simp [oGet] at h
  | cons p r ih =>
    obtain ⟨n', o'⟩ := p
    by_cases hp : n' = n
    · simp [hp]
    · simp only [oGet] at h
      rw [if_neg (by simpa using hp)] at h
      simpa using Or.inr (ih h)

theorem oSet_keys_mem (t : ObjTable) (n : Nat) (o : PObj)
    (h : n ∈ t.map (·.1)) : (oSet t n o).map (·.1) = t.map (·.1) := by
  induction t with
  | nil => simp at h
  | cons p r ih =>
    obtain ⟨n', o'⟩ := p
    by_cases hp : n' = n
    · simp only [oSet]
      rw [if_pos (by simpa using hp)]
      simp [hp]
    · simp only [oSet]
      rw [if_neg (by simpa using hp)]
      simp only [List.map_cons, List.mem_cons] at h
      simp only [List.map_cons]
      rcases h with h | h
      · exact absurd h.symm hp
      · rw [ih h]

theorem oSet_keys_new (t : ObjTable) (n : Nat) (o : PObj)
    (h : ¬ n ∈ t.map (·.1)) : (oSet t n o).map (·.1) = t.map (·.1) ++ [n] := by
  induction t with
  | nil => simp [oSet]
  | cons p r ih =>
    obtain ⟨n', o'⟩ := p
    simp only [List.map_cons, List.mem_cons] at h
    push_neg at h
    simp only [oSet]
    rw [if_neg (by simpa using (Ne.symm h.1))]
    simp only [List.map_cons, List.cons_append]
    rw [ih h.2]



theorem prefix_drop_append {α : Type} (X Y pat : List α) (off : Nat)
    (h : pat <+: X.drop off) : pat <+: (X ++ Y).drop off := by
  rcases le_or_lt off X.length with hle | hlt
  · rw [List.drop_append_of_le_length hle]
    exact h.trans (List.prefix_append _ _)
  · rw [List.drop_eq_nil_of_le (le_of_lt hlt)] at h
    rw [List.prefix_nil] at h
    subst h
    exact List.nil_prefix

theorem objAssemble_shape (nt : Str) (d : PDict) (b : Str) :
    ∃ t, objAssemble nt d b = nt ++ '\r' :: t := by
  have hbin : nt ++ ['\r'] ++ (if List.isEmpty d = true then ([] : Str) else serializeDict d) ++ b
      = nt ++ '\r' :: ((if List.isEmpty d = true then ([] : Str) else serializeDict d) ++ b) := by
    simp [List.append_assoc]
  unfold objAssemble
  rw [hbin]
  generalize (if List.isEmpty d = true then ([] : Str) else serializeDict d) ++ b = X
  dsimp only
  split
  · exact ⟨X ++ "endobj\r".data, by simp⟩
  · exact ⟨X ++ '\r' :: "endobj\r".data, by simp [List.append_assoc]⟩

theorem objSerialize_shape (zc : List Nat → List Nat) (fl : Bool) (o : PObj)
    (s : Str) (h : objSerialize zc fl o = .ok s) :
    ∃ t, s = o.numTok ++ '\r' :: t := by
  simp only [objSerialize, bind, Except.bind] at h
  rcases hfl : objFilterList (dPop o.dict "/Filter".data).1 with e | flist0 <;>
    rw [hfl] at h <;> dsimp only at h
  · exact Except.noConfusion h
  · cases hst : o.stream <;> rw [hst] at h <;> dsimp only at h
    · cases hct : o.contents <;> rw [hct] at h <;> dsimp only at h
      · exact Except.noConfusion h
      · split at h
        · exact Except.noConfusion h
        · injection h with h
          exact h ▸ objAssemble_shape _ _ _
    · injection h with h
      exact h ▸ objAssemble_shape _ _ _



theorem serStep_spec (zc : List Nat → List Nat) (fl : Bool)
    (acc acc' : Str × List (Nat × Nat)) (p : Nat × PObj)
    (h : serStep zc fl acc p = .ok acc') :
    ∃ s, objSerialize zc fl p.2 = .ok s ∧
      acc' = (acc.1 ++ s, acc.2 ++ [(p.1, byteLen acc.1)]) := by
  simp only [serStep, bind, Except.bind] at h
  rcases hs : objSerialize zc fl p.2 with e | s <;> rw [hs] at h <;> dsimp only at h
  · exact Except.noConfusion h
  · injection h with h
    exact ⟨s, rfl, h.symm⟩

theorem foldlM_serStep_keys (zc : List Nat → List Nat) (fl : Bool) :
    ∀ (l : ObjTable) (acc r : Str × List (Nat × Nat)),
    List.foldlM (serStep zc fl) acc l = .ok r →
    r.2.map (·.1) = acc.2.map (·.1) ++ l.map (·.1) := by
  intro l
  induction l with
  | nil =>
    intro acc r h
    simp only [List.foldlM_nil, pure, Except.pure] at h
    injection h with h
    simp [h]
  | cons p rest ih =>
    intro acc r h
    simp only [List.foldlM_cons, bind, Except.bind] at h
    rcases hs : serStep zc fl acc p with e | acc' <;> rw [hs] at h <;> dsimp only at h
    · exact Except.noConfusion h
    · obtain ⟨s, _, hacc⟩ := serStep_spec _ _ _ _ _ hs
      rw [ih acc' r h, hacc]
      simp

theorem foldlM_serStep_grow (zc : List Nat → List Nat) (fl : Bool) :
    ∀ (l : ObjTable) (acc r : Str × List (Nat × Nat)),
    List.foldlM (serStep zc fl) acc l = .ok r →
    ∃ t, r.1 = acc.1 ++ t := by
  intro l
  induction l with
  | nil =>
    intro acc r h
    simp only [List.foldlM_nil, pure, Except.pure] at h
    injection h with h
    exact ⟨[], by simp [h]⟩
  | cons p rest ih =>
    intro acc r h
    simp only [List.foldlM_cons, bind, Except.bind] at h
    rcases hs : serStep zc fl acc p with e | acc' <;> rw [hs] at h <;> dsimp only at h
    · exact Except.noConfusion h
    · obtain ⟨s, _, hacc⟩ := serStep_spec _ _ _ _ _ hs
      obtain ⟨t, ht⟩ := ih acc' r h
      exact ⟨s ++ t, by rw [ht, hacc]; simp⟩

theorem foldlM_serStep_pointing (zc : List Nat → List Nat) (fl : Bool) :
    ∀ (l : ObjTable) (acc r : Str × List (Nat × Nat)),
    (∀ p ∈ l, (p : Nat × PObj).2.numTok = decStr p.1 ++ " 0 obj".data) →
    (∀ q ∈ acc.2, utf8Encode (decStr (q : Nat × Nat).1 ++ " 0 obj".data) <+:
        (utf8Encode acc.1).drop q.2) →
    List.foldlM (serStep zc fl) acc l = .ok r →
    ∀ q ∈ r.2, utf8Encode (decStr q.1 ++ " 0 obj".data) <+:
        (utf8Encode r.1).drop q.2 := by
  intro l
  induction l with
  | nil =>
    intro acc r _ hinv h
    simp only [List.foldlM_nil, pure, Except.pure] at h
    injection h with h
    exact h ▸ hinv
  | cons p rest ih =>
    intro acc r hwf hinv h
    simp only [List.foldlM_cons, bind, Except.bind] at h
    rcases hs : serStep zc fl acc p with e | acc' <;> rw [hs] at h <;> dsimp only at h
    · exact Except.noConfusion h
    · obtain ⟨s, hser, hacc⟩ := serStep_spec _ _ _ _ _ hs
      refine ih acc' r (fun q hq => hwf q (List.mem_cons_of_mem _ hq)) ?_ h
      intro q hq
      rw [hacc]
      dsimp only
      rw [hacc] at hq
      dsimp only at hq
      rw [List.mem_append] at hq
      rcases hq with hq | hq
      · rw [utf8Encode_append acc.1 s]
        exact prefix_drop_append _ _ _ _ (hinv q hq)
      · rw [List.mem_singleton] at hq
        subst hq
        dsimp only
        rw [utf8Encode_append acc.1 s]
        have hb : byteLen acc.1 = (utf8Encode acc.1).length := rfl
        rw [hb, List.drop_left]
        obtain ⟨t, ht⟩ := objSerialize_shape _ _ _ _ hser
        rw [ht, hwf p (List.mem_cons_self _ _)]
        exact ⟨utf8Encode ('\r' :: t), (utf8Encode_append _ _).symm⟩

/-- Variant of the pointing invariant that does not assume canonical object
tokens: every recorded offset points at bytes beginning with the object's
own `numTok`, abstracted through a predicate `Q` relating object numbers to
the tokens recorded for them. -/
theorem foldlM_serStep_pointing_tok (zc : List Nat → List Nat) (fl : Bool)
    (Q : Nat → Str → Prop) :
    ∀ (l : ObjTable) (acc r : Str × List (Nat × Nat)),
    (∀ p ∈ l, Q (p : Nat × PObj).1 p.2.numTok) →
    (∀ q ∈ acc.2, ∃ tok, Q (q : Nat × Nat).1 tok ∧
        utf8Encode tok <+: (utf8Encode acc.1).drop q.2) →
    List.foldlM (serStep zc fl) acc l = .ok r →
    ∀ q ∈ r.2, ∃ tok, Q q.1 tok ∧
        utf8Encode tok <+: (utf8Encode r.1).drop q.2 := by
  intro l
  induction l with
  | nil =>
    intro acc r _ hinv h
    simp only [List.foldlM_nil, pure, Except.pure] at h
    injection h with h
    exact h ▸ hinv
  | cons p rest ih =>
    intro acc r hwf hinv h
    simp only [List.foldlM_cons, bind, Except.bind] at h
    rcases hs : serStep zc fl acc p with e | acc' <;> rw [hs] at h <;> dsimp only at h
    · exact Except.noConfusion h
    · obtain ⟨s, hser, hacc⟩ := serStep_spec _ _ _ _ _ hs
      refine ih acc' r (fun q hq => hwf q (List.mem_cons_of_mem _ hq)) ?_ h
      intro q hq
      rw [hacc]
      dsimp only
      rw [hacc] at hq
      dsimp only at hq
      rw [List.mem_append] at hq
      rcases hq with hq | hq
      · obtain ⟨tok, hQ, hpre⟩ := hinv q hq
        refine ⟨tok, hQ, ?_⟩
        rw [utf8Encode_append acc.1 s]
        exact prefix_drop_append _ _ _ _ hpre
      · rw [List.mem_singleton] at hq
        subst hq
        dsimp only
        refine ⟨p.2.numTok, hwf p (List.mem_cons_self _ _), ?_⟩
        rw [utf8Encode_append acc.1 s]
        have hb : byteLen acc.1 = (utf8Encode acc.1).length := rfl
        rw [hb, List.drop_left]
        obtain ⟨t, ht⟩ := objSerialize_shape _ _ _ _ hser
        rw [ht]
        exact ⟨utf8Encode ('\r' :: t), (utf8Encode_append _ _).symm⟩



theorem max?_mem_and_le (l : List Nat) : ∀ (m : Nat), l.max? = some m →
    m ∈ l ∧ ∀ x ∈ l, x ≤ m := by
  induction l with
  | nil => intro m h; exact absurd h (by simp)
  | cons a t ih =>
    intro m h
    rw [List.max?_cons] at h
    injection h with h
    cases ht : t.max? with
    | none =>
      rw [ht] at h
      dsimp [Option.elim] at h
      subst h
      have ht' : t = [] := by
        cases t with
        | nil => rfl
        | cons b u => rw [List.max?_cons] at ht; exact Option.noConfusion ht
      subst ht'
      exact ⟨List.mem_singleton_self _, by intro x hx; rw [List.mem_singleton] at hx; omega⟩
    | some mt =>
      rw [ht] at h
      dsimp [Option.elim] at h
      obtain ⟨hmem, hbd⟩ := ih mt ht
      subst h
      constructor
      · rcases Nat.le_total a mt with hle | hle
        · rw [Nat.max_eq_right hle]
          exact List.mem_cons_of_mem _ hmem
        · rw [Nat.max_eq_left hle]
          exact List.mem_cons_self _ _
      · intro x hx
        rcases List.mem_cons.mp hx with hx | hx
        · subst hx; exact Nat.le_max_left _ _
        · exact le_trans (hbd x hx) (Nat.le_max_right _ _)

theorem max?_eq_of_mem_of_le (l : List Nat) (m : Nat) (hm : m ∈ l)
    (hb : ∀ x ∈ l, x ≤ m) : l.max? = some m := by
  cases l with
  | nil => simp at hm
  | cons a t =>
    have hs : ∃ m', (a :: t).max? = some m' := ⟨_, List.max?_cons⟩
    obtain ⟨m', hm'⟩ := hs
    obtain ⟨hmem, hbd⟩ := max?_mem_and_le _ _ hm'
    have h1 : m' ≤ m := hb m' hmem
    have h2 : m ≤ m' := hbd m hm
    rw [hm', Nat.le_antisymm h1 h2]

theorem fixInfoProducer_fields (st stW : PDF)
    (h : fixInfoProducer st = .ok stW) :
    stW.gemini = st.gemini ∧ stW.geminiHash = st.geminiHash ∧
    stW.binaryHash = st.binaryHash ∧ stW.flate = st.flate ∧
    stW.geminiObjnum = st.geminiObjnum ∧ stW.trailer = st.trailer ∧
    stW.objects.map (·.1) = st.objects.map (·.1) := by
  simp only [fixInfoProducer, bind, Except.bind] at h
  rcases hlk : infoLookup st with e | ni <;> rw [hlk] at h <;> dsimp only at h
  · exact Except.noConfusion h
  · obtain ⟨n, info⟩ := ni
    dsimp only at h
    rcases hp0 : (dPop (dSet info "/Creator".data (PVal.tok "(gemdoc)".data)) "/Producer".data).1
      with _ | pv <;> rw [hp0] at h <;> dsimp only [orErr] at h
    · exact Except.noConfusion h
    · cases pv <;> dsimp only at h
      case tok p =>
        simp only [writeInfo, bind, Except.bind] at h
        rcases hog : oGet st.objects n with _ | o <;> rw [hog] at h <;>
          dsimp only [orErr] at h
        · exact Except.noConfusion h
        · injection h with h
          subst h
          refine ⟨rfl, rfl, rfl, rfl, rfl, rfl, ?_⟩
          exact oSet_keys_mem _ _ _ (oGet_mem_keys _ _ _ hog)
      case arr l => exact Except.noConfusion h
      case dct d => exact Except.noConfusion h



theorem core_shape (zc : List Nat → List Nat) (st : PDF) (g : Str)
    (out : Str) (xref : List (Nat × Nat)) (sx : Nat) (trl1 : PDict)
    (hg : st.gemini = some g)
    (h : pdfSerializeCore zc st = .ok (out, xref, sx, trl1)) :
    ∃ stW h1 h2 res2 mx,
      fixInfoProducer st = .ok stW ∧
      st.geminiHash = some h1 ∧ st.binaryHash = some h2 ∧
      trl1 = dSet st.trailer "/ID".data (.tok (idToken h1 h2)) ∧
      List.foldlM (serStep zc st.flate)
        ((gemHeader ++ gemEmbedObj g st.geminiObjnum) ++ pdfMarker,
         [(st.geminiObjnum, byteLen gemHeader)]) stW.objects = .ok (res2, xref) ∧
      sx = byteLen res2 ∧
      (xref.map (·.1)).max? = some mx ∧
      out = res2 ++ xrefSection xref mx ++ trailerSerialize trl1 ++ pdfTail sx := by
  simp only [pdfSerializeCore, bind, Except.bind] at h
  rcases hfix : fixInfoProducer st with e | stW <;> rw [hfix] at h <;> dsimp only at h
  · exact Except.noConfusion h
  · obtain ⟨hpg, hph1, hph2, hpfl, hpgn, hptr, hpko⟩ := fixInfoProducer_fields _ _ hfix
    rw [hpg, hg] at h
    dsimp only at h
    rcases hh1 : st.geminiHash with _ | h1
    · rw [hph1, hh1] at h; dsimp only [orErr] at h; exact Except.noConfusion h
    · rw [hph1, hh1] at h
      dsimp only [orErr] at h
      rcases hh2 : st.binaryHash with _ | h2
      · rw [hph2, hh2] at h; dsimp only [orErr] at h; exact Except.noConfusion h
      · rw [hph2, hh2] at h
        dsimp only [orErr] at h
        rw [hpfl, hpgn, hptr] at h
        rcases hfold : List.foldlM (serStep zc st.flate)
            ((gemHeader ++ gemEmbedObj g st.geminiObjnum) ++ pdfMarker,
             [(st.geminiObjnum, byteLen gemHeader)]) stW.objects with e | r
        · rw [hfold] at h; dsimp only at h; exact Except.noConfusion h
        · rw [hfold] at h
          dsimp only at h
          obtain ⟨res2, xref'⟩ := r
          dsimp only at h
          rcases hmx : (xref'.map (·.1)).max? with _ | mx <;> rw [hmx] at h <;>
            dsimp only at h
          · exact Except.noConfusion h
          · injection h with h
            injection h with ha h
            injection h with hb h
            injection h with hc hd
            subst hb
            subst hc
            subst hd
            exact ⟨stW, h1, h2, res2, mx, rfl, rfl, rfl, rfl, hfold,
              rfl, hmx, ha.symm⟩



theorem makeAttachment_shape (objs : ObjTable) (trl : PDict) (gnum : Nat)
    (fname : Str) (objs2 : ObjTable) (trl2 : PDict)
    (h : makeAttachment objs trl gnum fname = .ok (objs2, trl2)) :
    ∃ rootNum rootObj fs rd2,
      oGet objs rootNum = some rootObj ∧
      objs2 = oSet (oSet objs (gnum + 1) fs) rootNum { rootObj with dict := rd2 } ∧
      trl2 = dSet trl "/Size".data (.tok (decStr (gnum + 2))) := by
  simp only [makeAttachment, bind, Except.bind] at h
  rcases hrr : dGet trl "/Root".data with _ | rootRef <;> rw [hrr] at h <;>
    dsimp only [orErr] at h
  · exact Except.noConfusion h
  · cases rootRef <;> dsimp only at h
    case arr l => exact Except.noConfusion h
    case dct d => exact Except.noConfusion h
    case tok rt =>
      rcases hrn : refNum rt with e | rootNum <;> rw [hrn] at h <;> dsimp only at h
      · exact Except.noConfusion h
      · rcases hro : oGet objs rootNum with _ | rootObj <;> rw [hro] at h <;>
          dsimp only [orErr] at h
        · exact Except.noConfusion h
        · rcases hfs : objectParse (decStr (gnum + 1) ++ " 0 obj\r<</Type/Filespec/AFRelationship/Source/F".data ++
              makeUtf16String fname ++ "/UF".data ++ makeUtf16String fname ++
              "/EF<</F ".data ++ decStr gnum ++ " 0 R>>>>\nendobj\r".data) with e | fs <;>
            rw [hfs] at h <;> dsimp only at h
          · exact Except.noConfusion h
          · set rd1 := dSet rootObj.dict "/Names".data
              (.dct [("/EmbeddedFiles".data,
                .dct [("/Names".data,
                  .arr [.tok (makeUtf16String fname), .tok (decStr (gnum + 1) ++ " 0 R".data)])])]) with hrd1
            rcases haf : dGet rd1 "/AF".data with _ | afv
            · rw [haf] at h
              dsimp only at h
              injection h with h1
              injection h1 with h1 h2
              exact ⟨rootNum, rootObj, fs, _, hro, h1.symm, h2.symm⟩
            · rw [haf] at h
              cases afv <;> dsimp only at h
              case tok t => exact Except.noConfusion h
              case dct d => exact Except.noConfusion h
              case arr l =>
                injection h with h1
                injection h1 with h1 h2
                exact ⟨rootNum, rootObj, fs, _, hro, h1.symm, h2.symm⟩

theorem pdfInit_shape (sha : List Nat → Str) (g binary fname : Str)
    (flate : Bool) (st : PDF)
    (h : pdfInit sha (some g) binary fname flate = .ok st) :
    ∃ objs trl mx0 objs2 trl2,
      pdfInitLoop (binary.length + 1) [] [] binary = .ok (objs, trl) ∧
      (objs.map (·.1)).max? = some mx0 ∧
      makeAttachment objs trl (mx0 + 1) fname = .ok (objs2, trl2) ∧
      st = ⟨some (sha (utf8Encode g)), some (sha (utf8Encode binary)), flate,
        some g, mx0 + 1, objs2, trl2⟩ := by
  simp only [pdfInit, bind, Except.bind] at h
  rcases hloop : pdfInitLoop (binary.length + 1) [] [] binary with e | ot <;>
    rw [hloop] at h <;> dsimp only at h
  · exact Except.noConfusion h
  · obtain ⟨objs, trl⟩ := ot
    dsimp only at h
    rcases hmx : (objs.map (·.1)).max? with _ | mx0 <;> rw [hmx] at h <;>
      dsimp only at h
    · exact Except.noConfusion h
    · rcases hma : makeAttachment objs trl (mx0 + 1) fname with e | ot2 <;>
        rw [hma] at h <;> dsimp only at h
      · exact Except.noConfusion h
      · obtain ⟨objs2, trl2⟩ := ot2
        dsimp only at h
        injection h with h
        exact ⟨objs, trl, mx0, objs2, trl2, rfl, hmx, hma, h.symm⟩



/-- Claim C3: in every file emitted by the polyglot serializer for an
assembled state (embedded-file and filespec objects allocated by
`GemdocPDF.__init__`), the trailer written into the output carries
`/Size` equal to one plus the maximum object number emitted. -/
theorem C3_size_invariant (sha : List Nat → Str) (g binary fname : Str)
    (flate : Bool) (zc : List Nat → List Nat) (st : PDF) (out : Str)
    (xref : List (Nat × Nat)) (sx : Nat) (trl1 : PDict)
    (hinit : pdfInit sha (some g) binary fname flate = .ok st)
    (hser : pdfSerializeCore zc st = .ok (out, xref, sx, trl1)) :
    ∃ mx, (xref.map (·.1)).max? = some mx ∧
      dGet trl1 "/Size".data = some (.tok (decStr (mx + 1))) ∧
      ∃ pre, out = pre ++ trailerSerialize trl1 ++ pdfTail sx := by
  obtain ⟨objs, trl, mx0, objs2, trl2, hloop, hmx0, hma, hst⟩ :=
    pdfInit_shape sha g binary fname flate st hinit
  have hgem : st.gemini = some g := by rw [hst]
  obtain ⟨stW, h1, h2, res2, mx, hfix, hh1, hh2, htrl, hfold, hsx, hmx, hout⟩ :=
    core_shape zc st g out xref sx trl1 hgem hser
  obtain ⟨rootNum, rootObj, fs, rd2, hro, hobjs2, htrl2⟩ :=
    makeAttachment_shape objs trl (mx0 + 1) fname objs2 trl2 hma
  obtain ⟨hpg, hph1, hph2, hpfl, hpgn, hptr, hpko⟩ := fixInfoProducer_fields _ _ hfix
  -- the key list of the emitted xref
  have hkeys : xref.map (·.1) = (mx0 + 1) :: objs.map (·.1) ++ [mx0 + 2] := by
    have hk := foldlM_serStep_keys zc st.flate stW.objects _ _ hfold
    have hko : stW.objects.map (·.1) = objs.map (·.1) ++ [mx0 + 2] := by
      rw [hpko, hst]
      dsimp only
      rw [hobjs2]
      have hbound := (max?_mem_and_le _ _ hmx0).2
      have hnotmem : ¬ (mx0 + 2) ∈ objs.map (·.1) := by
        intro hmem
        have := hbound _ hmem
        omega
      rw [oSet_keys_mem _ rootNum _ ?memk]
      · exact oSet_keys_new _ _ _ hnotmem
      · rw [oSet_keys_new _ _ _ hnotmem]
        exact List.mem_append_left _ (oGet_mem_keys _ _ _ hro)
    rw [hk, hko]
    have hgn : st.geminiObjnum = mx0 + 1 := by rw [hst]
    rw [hgn]
    simp
  -- the maximum is the filespec object number
  have hmxval : mx = mx0 + 2 := by
    have hcalc : (xref.map (·.1)).max? = some (mx0 + 2) := by
      rw [hkeys]
      apply max?_eq_of_mem_of_le
      · simp
      · intro x hx
        have hbound := (max?_mem_and_le _ _ hmx0).2
        rcases List.mem_cons.mp hx with hx | hx
        · omega
        · rcases List.mem_append.mp hx with hx | hx
          · have := hbound _ hx; omega
          · rw [List.mem_singleton] at hx; omega
    rw [hmx] at hcalc
    exact Option.some.inj hcalc
  refine ⟨mx, hmx, ?_, ?_⟩
  · rw [htrl, hst]
    dsimp only
    rw [dGet_dSet_ne _ _ _ _ (by decide), htrl2, dGet_dSet_self, hmxval]
  · exact ⟨res2 ++ xrefSection xref mx, by rw [hout]⟩



/-- Claim C4: when a gemini source is attached, the emitted trailer's
`/ID` value is exactly the byte sequence `'[<H1><H2>]'` where `H1` is the
digest of the UTF-8 source bytes and `H2` the digest of the engine's
original pdf bytes (with `sha` standing for `sha256(...).hexdigest()`),
and the same inputs always yield the same `/ID`. -/
theorem C4_file_identifier (sha : List Nat → Str) (g binary fname : Str)
    (flate : Bool) (zc : List Nat → List Nat) (st : PDF) (out : Str)
    (xref : List (Nat × Nat)) (sx : Nat) (trl1 : PDict)
    (hinit : pdfInit sha (some g) binary fname flate = .ok st)
    (hser : pdfSerializeCore zc st = .ok (out, xref, sx, trl1)) :
    dGet trl1 "/ID".data =
      some (.tok (idToken (sha (utf8Encode g)) (sha (utf8Encode binary)))) ∧
    (∃ pre, out = pre ++ trailerSerialize trl1 ++ pdfTail sx) ∧
    (∀ st' out' xref' sx' trl1',
      pdfInit sha (some g) binary fname flate = .ok st' →
      pdfSerializeCore zc st' = .ok (out', xref', sx', trl1') →
      dGet trl1' "/ID".data = dGet trl1 "/ID".data) := by
  obtain ⟨objs, trl, mx0, objs2, trl2, hloop, hmx0, hma, hst⟩ :=
    pdfInit_shape sha g binary fname flate st hinit
  have hgem : st.gemini = some g := by rw [hst]
  obtain ⟨stW, h1, h2, res2, mx, hfix, hh1, hh2, htrl, hfold, hsx, hmx, hout⟩ :=
    core_shape zc st g out xref sx trl1 hgem hser
  have hh1' : h1 = sha (utf8Encode g) := by
    have : st.geminiHash = some (sha (utf8Encode g)) := by rw [hst]
    rw [this] at hh1
    exact (Option.some.inj hh1).symm
  have hh2' : h2 = sha (utf8Encode binary) := by
    have : st.binaryHash = some (sha (utf8Encode binary)) := by rw [hst]
    rw [this] at hh2
    exact (Option.some.inj hh2).symm
  refine ⟨?_, ⟨res2 ++ xrefSection xref mx, by rw [hout]⟩, ?_⟩
  · rw [htrl, hh1', hh2', dGet_dSet_self]
  · intro st' out' xref' sx' trl1' hinit' hser'
    have hst' : st' = st := Except.ok.inj (hinit'.symm.trans hinit)
    subst hst'
    have : (out', xref', sx', trl1') = (out, xref, sx, trl1) :=
      Except.ok.inj (hser'.symm.trans hser)
    injection this with _ this
    injection this with _ this
    injection this with _ this
    rw [this]

theorem oGet_mem_pair (t : ObjTable) (n : Nat) (o : PObj)
    (h : oGet t n = some o) : (n, o) ∈ t := by
  induction t with
  | nil => exact absurd h (by simp [oGet])
  | cons p r ih =>
    obtain ⟨n', o'⟩ := p
    by_cases hp : n' = n
    · simp only [oGet] at h
      rw [if_pos (by simpa using hp)] at h
      injection h with h
      subst hp h
      exact List.mem_cons_self _ _
    · simp only [oGet] at h
      rw [if_neg (by simpa using hp)] at h
      exact List.mem_cons_of_mem _ (ih h)

theorem mem_oSet (t : ObjTable) (n : Nat) (o : PObj) (q : Nat × PObj)
    (h : q ∈ oSet t n o) : q ∈ t ∨ q = (n, o) := by
  induction t with
  | nil => simpa [oSet] using h
  | cons p r ih =>
    obtain ⟨n', o'⟩ := p
    by_cases hp : n' = n
    · simp only [oSet] at h
      rw [if_pos (by simpa using hp)] at h
      rcases List.mem_cons.mp h with h | h
      · exact Or.inr h
      · exact Or.inl (List.mem_cons_of_mem _ h)
    · simp only [oSet] at h
      rw [if_neg (by simpa using hp)] at h
      rcases List.mem_cons.mp h with h | h
      · exact Or.inl (h ▸ List.mem_cons_self _ _)
      · rcases ih h with h | h
        · exact Or.inl (List.mem_cons_of_mem _ h)
        · exact Or.inr h

theorem fixInfoProducer_numToks (st stW : PDF)
    (h : fixInfoProducer st = .ok stW) :
    ∀ p ∈ stW.objects, ∃ q ∈ st.objects,
      (q : Nat × PObj).1 = (p : Nat × PObj).1 ∧ q.2.numTok = p.2.numTok := by
  simp only [fixInfoProducer, bind, Except.bind] at h
  rcases hlk : infoLookup st with e | ni <;> rw [hlk] at h <;> dsimp only at h
  · exact Except.noConfusion h
  · obtain ⟨n, info⟩ := ni
    dsimp only at h
    rcases hp0 : (dPop (dSet info "/Creator".data (PVal.tok "(gemdoc)".data)) "/Producer".data).1
      with _ | pv <;> rw [hp0] at h <;> dsimp only [orErr] at h
    · exact Except.noConfusion h
    · cases pv <;> dsimp only at h
      case tok p =>
        simp only [writeInfo, bind, Except.bind] at h
        rcases hog : oGet st.objects n with _ | o <;> rw [hog] at h <;>
          dsimp only [orErr] at h
        · exact Except.noConfusion h
        · injection h with h
          subst h
          intro q hq
          dsimp only at hq
          rcases mem_oSet _ _ _ _ hq with hq | hq
          · exact ⟨q, hq, rfl, rfl⟩
          · subst hq
            exact ⟨(n, o), oGet_mem_pair _ _ _ hog, rfl, rfl⟩
      case arr l => exact Except.noConfusion h
      case dct d => exact Except.noConfusion h

theorem core_shape_none (zc : List Nat → List Nat) (st : PDF)
    (out : Str) (xref : List (Nat × Nat)) (sx : Nat) (trl1 : PDict)
    (hg : st.gemini = none)
    (h : pdfSerializeCore zc st = .ok (out, xref, sx, trl1)) :
    ∃ stW res2 mx,
      fixInfoProducer st = .ok stW ∧
      trl1 = st.trailer ∧
      List.foldlM (serStep zc st.flate) (noGemHeader ++ pdfMarker, [])
        stW.objects = .ok (res2, xref) ∧
      sx = byteLen res2 ∧
      (xref.map (·.1)).max? = some mx ∧
      out = res2 ++ xrefSection xref mx ++ trailerSerialize trl1 ++ pdfTail sx := by
  simp only [pdfSerializeCore, bind, Except.bind] at h
  rcases hfix : fixInfoProducer st with e | stW <;> rw [hfix] at h <;> dsimp only at h
  · exact Except.noConfusion h
  · obtain ⟨hpg, hph1, hph2, hpfl, hpgn, hptr, hpko⟩ := fixInfoProducer_fields _ _ hfix
    rw [hpg, hg] at h
    dsimp only at h
    rw [hpfl, hptr] at h
    rcases hfold : List.foldlM (serStep zc st.flate) (noGemHeader ++ pdfMarker, [])
        stW.objects with e | r
    · rw [hfold] at h; dsimp only at h; exact Except.noConfusion h
    · rw [hfold] at h
      dsimp only at h
      obtain ⟨res2, xref'⟩ := r
      dsimp only at h
      rcases hmx : (xref'.map (·.1)).max? with _ | mx <;> rw [hmx] at h <;>
        dsimp only at h
      · exact Except.noConfusion h
      · injection h with h
        injection h with ha h
        injection h with hb h
        injection h with hc hd
        subst hb
        subst hc
        subst hd
        exact ⟨stW, res2, mx, rfl, rfl, hfold, rfl, hmx, ha.symm⟩



theorem utf8Encode_prefix_mono (a b : Str) (h : a <+: b) :
    utf8Encode a <+: utf8Encode b := by
  obtain ⟨t, ht⟩ := h
  exact ⟨utf8Encode t, by rw [← utf8Encode_append, ht]⟩

theorem pointing_extend (A B : Str) (pat : List Nat) (off : Nat)
    (h : pat <+: (utf8Encode A).drop off) :
    pat <+: (utf8Encode (A ++ B)).drop off := by
  rw [utf8Encode_append A B]
  exact prefix_drop_append _ _ _ _ h

/-- Claim C2 (amended): in every file emitted by the polyglot serializer,
every xref entry's byte offset points at the first byte of that object's
serialization, which begins with the object's number token exactly as it
was recorded when the engine document was parsed (`_consume_objnum` keeps
the matched digit strings verbatim); the embedded-file object allocated by
gemdoc itself always carries the canonical `'{n} 0 obj'` token.  The bytes
at the offset therefore begin with `'i 0 obj'` precisely when the recorded
token is canonical, which fails for engine PDFs writing object numbers
with leading zeros (see the counterexample). -/
theorem C2_xref_offsets (zc : List Nat → List Nat) (st : PDF) (out : Str)
    (xref : List (Nat × Nat)) (sx : Nat) (trl1 : PDict)
    (hser : pdfSerializeCore zc st = .ok (out, xref, sx, trl1)) :
    ∀ q ∈ xref, ∃ tok,
      (((q : Nat × Nat).1 = st.geminiObjnum ∧
          tok = decStr q.1 ++ " 0 obj".data) ∨
        ∃ o, (q.1, o) ∈ st.objects ∧ tok = o.numTok) ∧
      utf8Encode tok <+: (utf8Encode out).drop q.2 := by
  cases hg : st.gemini with
  | some g =>
    obtain ⟨stW, h1, h2, res2, mx, hfix, hh1, hh2, htrl, hfold, hsx, hmx, hout⟩ :=
      core_shape zc st g out xref sx trl1 hg hser
    have hwfW : ∀ p ∈ stW.objects,
        ((p : Nat × PObj).1 = st.geminiObjnum ∧
            p.2.numTok = decStr p.1 ++ " 0 obj".data) ∨
          ∃ o, (p.1, o) ∈ st.objects ∧ p.2.numTok = o.numTok := by
      intro p hp
      obtain ⟨q, hq, hk, hnt⟩ := fixInfoProducer_numToks _ _ hfix p hp
      right
      refine ⟨q.2, ?_, hnt.symm⟩
      rw [← hk]
      exact hq
    have hinit : ∀ q ∈ [(st.geminiObjnum, byteLen gemHeader)], ∃ tok,
        (((q : Nat × Nat).1 = st.geminiObjnum ∧
            tok = decStr q.1 ++ " 0 obj".data) ∨
          ∃ o, (q.1, o) ∈ st.objects ∧ tok = o.numTok) ∧
        utf8Encode tok <+:
          (utf8Encode ((gemHeader ++ gemEmbedObj g st.geminiObjnum) ++ pdfMarker)).drop q.2 := by
      intro q hq
      rw [List.mem_singleton] at hq
      subst hq
      refine ⟨decStr st.geminiObjnum ++ " 0 obj".data, Or.inl ⟨rfl, rfl⟩, ?_⟩
      dsimp only
      rw [utf8Encode_append (gemHeader ++ gemEmbedObj g st.geminiObjnum) pdfMarker,
          utf8Encode_append gemHeader (gemEmbedObj g st.geminiObjnum),
          List.append_assoc]
      have hb : byteLen gemHeader = (utf8Encode gemHeader).length := rfl
      rw [hb, List.drop_left, ← utf8Encode_append]
      apply utf8Encode_prefix_mono
      refine ⟨"\r<</Type/EmbeddedFile/Subtype/text#2fgemini/Params<</Size ".data ++
        decStr ((utf8Encode g).length + 1) ++ ">>/Length ".data ++
        decStr ((utf8Encode g).length + 1) ++ ">>\rstream\n".data ++ g ++
        "\n\nendstream\nendobj\n".data ++ pdfMarker, ?_⟩
      have hdec : (" 0 obj\r<</Type/EmbeddedFile/Subtype/text#2fgemini/Params<</Size ").data
          = " 0 obj".data ++ "\r<</Type/EmbeddedFile/Subtype/text#2fgemini/Params<</Size ".data := rfl
      unfold gemEmbedObj
      rw [hdec]
      simp [List.append_assoc]
    have hres2 := foldlM_serStep_pointing_tok zc st.flate
      (fun n tok => (n = st.geminiObjnum ∧ tok = decStr n ++ " 0 obj".data) ∨
        ∃ o, (n, o) ∈ st.objects ∧ tok = o.numTok)
      stW.objects _ _ hwfW hinit hfold
    intro q hq
    obtain ⟨tok, hQ, hpre⟩ := hres2 q hq
    refine ⟨tok, hQ, ?_⟩
    rw [hout]
    exact pointing_extend _ _ _ _ (pointing_extend _ _ _ _
      (pointing_extend _ _ _ _ hpre))
  | none =>
    obtain ⟨stW, res2, mx, hfix, htrl, hfold, hsx, hmx, hout⟩ :=
      core_shape_none zc st out xref sx trl1 hg hser
    have hwfW : ∀ p ∈ stW.objects,
        ((p : Nat × PObj).1 = st.geminiObjnum ∧
            p.2.numTok = decStr p.1 ++ " 0 obj".data) ∨
          ∃ o, (p.1, o) ∈ st.objects ∧ p.2.numTok = o.numTok := by
      intro p hp
      obtain ⟨q, hq, hk, hnt⟩ := fixInfoProducer_numToks _ _ hfix p hp
      right
      refine ⟨q.2, ?_, hnt.symm⟩
      rw [← hk]
      exact hq
    have hinit : ∀ q ∈ ([] : List (Nat × Nat)), ∃ tok,
        (((q : Nat × Nat).1 = st.geminiObjnum ∧
            tok = decStr q.1 ++ " 0 obj".data) ∨
          ∃ o, (q.1, o) ∈ st.objects ∧ tok = o.numTok) ∧
        utf8Encode tok <+: (utf8Encode (noGemHeader ++ pdfMarker)).drop q.2 := by
      intro q hq
      exact absurd hq (List.not_mem_nil _)
    have hres2 := foldlM_serStep_pointing_tok zc st.flate
      (fun n tok => (n = st.geminiObjnum ∧ tok = decStr n ++ " 0 obj".data) ∨
        ∃ o, (n, o) ∈ st.objects ∧ tok = o.numTok)
      stW.objects _ _ hwfW hinit hfold
    intro q hq
    obtain ⟨tok, hQ, hpre⟩ := hres2 q hq
    refine ⟨tok, hQ, ?_⟩
    rw [hout]
    exact pointing_extend _ _ _ _ (pointing_extend _ _ _ _
      (pointing_extend _ _ _ _ hpre))



theorem lastFreeBelow_succ (keys : List Nat) (j : Nat) :
    lastFreeBelow keys (j + 1) =
      if keys.contains j then lastFreeBelow keys j else j := by
  unfold lastFreeBelow
  cases j with
  | zero => cases h : keys.contains 0 <;> simp [List.range', h]
  | succ k =>
    have h1 : k + 1 + 1 - 1 = k + 1 := rfl
    have h2 : k + 1 - 1 = k := rfl
    rw [h1, h2, List.range'_concat, List.foldl_append]
    dsimp only [List.foldl]
    have h3 : 1 + 1 * k = k + 1 := by omega
    rw [h3]

theorem xGet_none_iff (xr : List (Nat × Nat)) (j : Nat) :
    xGet xr j = none ↔ ¬ j ∈ xr.map (·.1) := by
  induction xr with
  | nil => simp [xGet]
  | cons p r ih =>
    obtain ⟨n', v⟩ := p
    by_cases h : n' = j
    · simp only [xGet]
      rw [if_pos (by simpa using h)]
      simp [h]
    · simp only [xGet]
      rw [if_neg (by simpa using h)]
      simp only [List.map_cons, List.mem_cons]
      rw [ih]
      constructor
      · intro hx hc
        rcases hc with hc | hc
        · exact h hc.symm
        · exact hx hc
      · intro hx
        intro hm
        exact hx (Or.inr hm)

theorem contains_iff_mem_nat (l : List Nat) (j : Nat) :
    l.contains j = true ↔ j ∈ l := by
  simp [List.contains]

theorem xrefRows_fold (xr : List (Nat × Nat)) :
    ∀ (n start : Nat) (acc : Str) (lf : Nat),
    lf = lastFreeBelow (xr.map (·.1)) start →
    ∃ rows : List Str,
      ((List.range' start n).foldl (fun acc i =>
        match xGet xr i with
        | some off => (acc.1 ++ pad10 off ++ " 00000 n \r".data, acc.2)
        | none => (acc.1 ++ pad10 acc.2 ++ " 00001 f \r".data, i)) (acc, lf)).1
        = acc ++ rows.foldr (· ++ ·) [] ∧
      rows.length = n ∧
      ∀ i, i < n → rows.get? i = some (
        match xGet xr (start + i) with
        | some off => pad10 off ++ " 00000 n \r".data
        | none => pad10 (lastFreeBelow (xr.map (·.1)) (start + i)) ++
            " 00001 f \r".data) := by
  intro n
  induction n with
  | zero =>
    intro start acc lf _
    exact ⟨[], by simp [List.range'], rfl, fun i hi => absurd hi (by omega)⟩
  | succ m ih =>
    intro start acc lf hlf
    rw [List.range'_succ, List.foldl_cons]
    cases hx : xGet xr start with
    | some off =>
      dsimp only
      have hmem : start ∈ xr.map (·.1) := by
        by_contra hc
        rw [← xGet_none_iff] at hc
        rw [hx] at hc
        exact Option.noConfusion hc
      have hlf' : lf = lastFreeBelow (xr.map (·.1)) (start + 1) := by
        rw [lastFreeBelow_succ, if_pos ((contains_iff_mem_nat _ _).mpr hmem), ← hlf]
      obtain ⟨rows', hcat, hlen, hget⟩ :=
        ih (start + 1) (acc ++ pad10 off ++ " 00000 n \r".data) lf hlf'
      refine ⟨(pad10 off ++ " 00000 n \r".data) :: rows', ?_, ?_, ?_⟩
      · rw [hcat]
        simp [List.append_assoc]
      · simp [hlen]
      · intro i hi
        cases i with
        | zero =>
          rw [List.get?_cons_zero, Nat.add_zero, hx]
        | succ j =>
          rw [List.get?_cons_succ]
          have hadd : start + (j + 1) = start + 1 + j := by omega
          rw [hadd]
          exact hget j (by omega)
    | none =>
      dsimp only
      have hnmem : ¬ start ∈ xr.map (·.1) := (xGet_none_iff _ _).mp hx
      have hlf' : start = lastFreeBelow (xr.map (·.1)) (start + 1) := by
        rw [lastFreeBelow_succ, if_neg (by
          intro hc
          exact hnmem ((contains_iff_mem_nat _ _).mp hc))]
      obtain ⟨rows', hcat, hlen, hget⟩ :=
        ih (start + 1) (acc ++ pad10 lf ++ " 00001 f \r".data) start hlf'
      refine ⟨(pad10 (lastFreeBelow (xr.map (·.1)) start) ++ " 00001 f \r".data) :: rows',
        ?_, ?_, ?_⟩
      · rw [hcat, ← hlf]
        simp [List.append_assoc]
      · simp [hlen]
      · intro i hi
        cases i with
        | zero =>
          rw [List.get?_cons_zero, Nat.add_zero, hx]
        | succ j =>
          rw [List.get?_cons_succ]
          have hadd : start + (j + 1) = start + 1 + j := by omega
          rw [hadd]
          exact hget j (by omega)



theorem xrefRows_spec (xr : List (Nat × Nat)) (mx : Nat) :
    ∃ rows : List Str,
      xrefRows xr mx = rows.foldr (· ++ ·) [] ∧
      rows.length = mx ∧
      ∀ i, i < mx → rows.get? i = some (
        match xGet xr (i + 1) with
        | some off => pad10 off ++ " 00000 n \r".data
        | none => pad10 (lastFreeBelow (xr.map (·.1)) (i + 1)) ++
            " 00001 f \r".data) := by
  have h0 : (0 : Nat) = lastFreeBelow (xr.map (·.1)) 1 := by
    simp [lastFreeBelow, List.range']
  obtain ⟨rows, hcat, hlen, hget⟩ := xrefRows_fold xr mx 1 [] 0 h0
  refine ⟨rows, ?_, hlen, ?_⟩
  · rw [xrefRows, hcat, List.nil_append]
  · intro i hi
    have hadd : 1 + i = i + 1 := by omega
    have := hget i hi
    rw [hadd] at this
    exact this

/-- Claim C8 (amended): the emitted xref section consists of the header
lines, the fixed head entry `'0000000000 65535 f '` for object 0, then one
row per object number 1..mx: `'{offset:010d} 00000 n '` for used entries
and `'{prev:010d} 00001 f '` for free entries, where `prev` is the
greatest free object number strictly below the entry (0 when there is
none) — the free list is chained backward, not forward. -/
theorem C8_xref_rows (zc : List Nat → List Nat) (st : PDF) (out : Str)
    (xref : List (Nat × Nat)) (sx : Nat) (trl1 : PDict)
    (hser : pdfSerializeCore zc st = .ok (out, xref, sx, trl1)) :
    ∃ (mx : Nat) (pre : Str) (rows : List Str),
      (xref.map (·.1)).max? = some mx ∧
      out = pre ++ xrefSection xref mx ++ trailerSerialize trl1 ++ pdfTail sx ∧
      xrefSection xref mx = "xref\r0 ".data ++ decStr (mx + 1) ++ ['\r'] ++
        "0000000000 65535 f \r".data ++ rows.foldr (· ++ ·) [] ∧
      rows.length = mx ∧
      ∀ i, i < mx → rows.get? i = some (
        match xGet xref (i + 1) with
        | some off => pad10 off ++ " 00000 n \r".data
        | none => pad10 (lastFreeBelow (xref.map (·.1)) (i + 1)) ++
            " 00001 f \r".data) := by
  cases hg : st.gemini with
  | some g =>
    obtain ⟨stW, h1, h2, res2, mx, hfix, hh1, hh2, htrl, hfold, hsx, hmx, hout⟩ :=
      core_shape zc st g out xref sx trl1 hg hser
    obtain ⟨rows, hrows, hlen, hget⟩ := xrefRows_spec xref mx
    refine ⟨mx, res2, rows, hmx, hout, ?_, hlen, hget⟩
    rw [xrefSection, hrows]
  | none =>
    obtain ⟨stW, res2, mx, hfix, htrl, hfold, hsx, hmx, hout⟩ :=
      core_shape_none zc st out xref sx trl1 hg hser
    obtain ⟨rows, hrows, hlen, hget⟩ := xrefRows_spec xref mx
    refine ⟨mx, res2, rows, hmx, hout, ?_, hlen, hget⟩
    rw [xrefSection, hrows]



set_option maxRecDepth 10000 in
/-- Claim C8 counterexample: for a concrete state with free object numbers
2 and 3, the emitted table writes `'0000000000 00001 f '` for entry 2 and
`'0000000002 00001 f '` for entry 3 — each free entry names the previous
free object, and the forward pointer `'0000000003'` the claim predicts for
entry 2 appears nowhere in the output. -/
theorem C8_counterexample :
    ∃ out xref sx trl1,
      pdfSerializeCore (fun x => x) stC8ex = .ok (out, xref, sx, trl1) ∧
      (strFind "0000000000 00001 f \r0000000002 00001 f \r".data out).isSome = true ∧
      strFind "0000000003".data out = none := by
  refine ⟨_, _, _, _, rfl, ?_, ?_⟩ <;> decide

set_option maxRecDepth 10000 in
theorem C8_xref_rows_witness :
    ∃ out xref sx trl1,
      pdfSerializeCore (fun x => x) stC8ex = .ok (out, xref, sx, trl1) ∧
      ∃ (mx : Nat) (pre : Str) (rows : List Str),
        (xref.map (·.1)).max? = some mx ∧
        out = pre ++ xrefSection xref mx ++ trailerSerialize trl1 ++ pdfTail sx ∧
        xrefSection xref mx = "xref\r0 ".data ++ decStr (mx + 1) ++ ['\r'] ++
          "0000000000 65535 f \r".data ++ rows.foldr (· ++ ·) [] ∧
        rows.length = mx ∧
        ∀ i, i < mx → rows.get? i = some (
          match xGet xref (i + 1) with
          | some off => pad10 off ++ " 00000 n \r".data
          | none => pad10 (lastFreeBelow (xref.map (·.1)) (i + 1)) ++
              " 00001 f \r".data) :=
  ⟨_, _, _, _, rfl, C8_xref_rows (fun x => x) stC8ex _ _ _ _ rfl⟩

set_option maxRecDepth 10000 in
theorem C2_xref_offsets_witness :
    ∃ out xref sx trl1,
      pdfSerializeCore (fun x => x) stWitC2 = .ok (out, xref, sx, trl1) ∧
      ∀ q ∈ xref, ∃ tok,
        (((q : Nat × Nat).1 = stWitC2.geminiObjnum ∧
            tok = decStr q.1 ++ " 0 obj".data) ∨
          ∃ o, (q.1, o) ∈ stWitC2.objects ∧ tok = o.numTok) ∧
        utf8Encode tok <+: (utf8Encode out).drop q.2 :=
  ⟨_, _, _, _, rfl,
    C2_xref_offsets (fun x => x) stWitC2 _ _ _ _ rfl⟩

set_option maxRecDepth 80000 in
/-- Claim C2, counterexample: the original claim predicts that the bytes at
every in-use xref entry's offset begin with `'i 0 obj'`.  Running the full
pipeline (`GemdocPDF.__init__` with a gemini source attached, then
`serialize`) on an engine document that writes its first object as
`01 0 obj` emits an in-use xref entry for object 1 whose offset points at
the bytes `'01 0 obj'` — which do not begin with `'1 0 obj'`. -/
theorem C2_counterexample :
    ∃ st out xref sx trl1,
      pdfInit shaWit (some "x\n".data) engC2 "source.gmi".data false = .ok st ∧
      pdfSerializeCore (fun x => x) st = .ok (out, xref, sx, trl1) ∧
      xGet xref 1 = some 195 ∧
      (utf8Encode "01 0 obj".data).isPrefixOf ((utf8Encode out).drop 195) = true ∧
      (utf8Encode "1 0 obj".data).isPrefixOf ((utf8Encode out).drop 195) = false :=
  ⟨_, _, _, _, _, rfl, rfl, rfl, by decide, by decide⟩

set_option maxRecDepth 10000 in
theorem C3_size_invariant_witness :
    ∃ st out xref sx trl1,
      pdfInit shaWit (some "x\n".data) engWit "source.gmi".data false = .ok st ∧
      pdfSerializeCore (fun x => x) st = .ok (out, xref, sx, trl1) ∧
      ∃ mx, (xref.map (·.1)).max? = some mx ∧
        dGet trl1 "/Size".data = some (.tok (decStr (mx + 1))) ∧
        ∃ pre, out = pre ++ trailerSerialize trl1 ++ pdfTail sx :=
  ⟨_, _, _, _, _, rfl, rfl,
    C3_size_invariant shaWit "x\n".data engWit "source.gmi".data false
      (fun x => x) _ _ _ _ _ rfl rfl⟩

set_option maxRecDepth 10000 in
theorem C4_file_identifier_witness :
    ∃ st out xref sx trl1,
      pdfInit shaWit (some "x\n".data) engWit "source.gmi".data false = .ok st ∧
      pdfSerializeCore (fun x => x) st = .ok (out, xref, sx, trl1) ∧
      dGet trl1 "/ID".data =
        some (.tok (idToken (shaWit (utf8Encode "x\n".data))
          (shaWit (utf8Encode engWit)))) ∧
      (∃ pre, out = pre ++ trailerSerialize trl1 ++ pdfTail sx) :=
  ⟨_, _, _, _, _, rfl, rfl,
    (C4_file_identifier shaWit "x\n".data engWit "source.gmi".data false
      (fun x => x) _ _ _ _ _ rfl rfl).1,
    (C4_file_identifier shaWit "x\n".data engWit "source.gmi".data false
      (fun x => x) _ _ _ _ _ rfl rfl).2.1⟩


end Gemdoc
